import Mathlib

/-!
Shallow embedding of the core logic of the `scooby` package
(`scooby/report.py`, `scooby/knowledge.py`): the version resolver
`get_version`, the package registry built by `PythonInfo.__init__` /
`_add_packages`, the version comparison helpers `version_tuple` /
`meets_version`, the `extra_meta` validation in `Report.__init__`,
`Report.to_dict`, and the two renderers `Report.__repr__` /
`Report._repr_html_`.

External collaborators (the installed-package-metadata index, the
module-import subsystem, the platform queries, `textwrap.wrap`,
`json.dumps`) are
modelled as explicit environment data or as small Lean functions mirroring
their documented behaviour.  The contents of the `PACKAGE_ALIASES` table are
imported by `report.py` from `knowledge.py` but the copy of `knowledge.py`
in this snapshot does not define the table, so the alias table is part of
the environment (`Env.aliases`); every theorem quantifies over it.
-/

/-- Sentinel returned when a module cannot be imported (report.py line 28). -/
def MODULE_NOT_FOUND : String := "Module not found"

/-- Sentinel returned when importing a module raises a non-import error
(report.py line 29). -/
def MODULE_TROUBLE : String := "Trouble importing"

/-- Sentinel returned when a module imports but exposes no version
(report.py line 30). -/
def VERSION_NOT_FOUND : String := "Version unknown"

/-- A loaded Python module: its `__name__` and its attribute dictionary
(`getattr` returns `some` value or raises `AttributeError` = `none`). -/
structure PyModule where
  name : String
  attrs : List (String × String)
deriving DecidableEq, Repr

/-- Outcome of `importlib.import_module(name)`: a module, an `ImportError`
(module not found), or any other exception raised during import. -/
inductive ImportOutcome where
  | found (m : PyModule)
  | importError
  | otherError
deriving Repr

/-- The external world `get_version` interacts with:
the `PACKAGE_ALIASES` table (not present in this snapshot of
`knowledge.py`, treated as data), the installed-package-metadata index
(`importlib.metadata.version`: `some` version or `PackageNotFoundError` =
`none`), the import subsystem, and the outcome of
`knowledge.get_pyqt5_version` (`none` models the `ImportError` it raises
when `PyQt5.Qt` is unavailable). -/
structure Env where
  aliases : List (String × String)
  metadata : List (String × String)
  importMod : String → ImportOutcome
  pyqt5Result : Option String

/-- Dynamic argument of `get_version`: a name string, a module handle, or
anything else (which makes the Python function raise `TypeError`). -/
inductive PyValue where
  | str (s : String)
  | mod (m : PyModule)
  | other
deriving DecidableEq, Repr

/-- `knowledge.VERSION_ATTRIBUTES` (knowledge.py lines 53-58). -/
def VERSION_ATTRIBUTES : List (String × String) :=
  [("vtk", "VTK_VERSION"), ("vtkmodules.all", "VTK_VERSION"),
   ("PyQt5", "Qt.PYQT_VERSION_STR"), ("sip", "SIP_VERSION_STR")]

/-- `knowledge.get_pyqt5_version` (knowledge.py lines 61-65): imports
`PYQT_VERSION_STR` from `PyQt5.Qt`; `none` models the `ImportError`. -/
def get_pyqt5_version (env : Env) : Option String := env.pyqt5Result

/-- `knowledge.VERSION_METHODS` (knowledge.py lines 68-70). -/
def VERSION_METHODS (env : Env) : List (String × Option String) :=
  [("PyQt5", get_pyqt5_version env)]

/-- Run the `VERSION_METHODS` override for `name`: `none` covers both the
`KeyError` (no entry) and the `ImportError` raised by the method, the two
exceptions caught at report.py lines 653-657. -/
def runVersionMethod (env : Env) (name : String) : Option String :=
  ((VERSION_METHODS env).lookup name).bind id

/-- `if name in PACKAGE_ALIASES: name = PACKAGE_ALIASES[name]`
(report.py lines 620-621). -/
def applyAlias (aliases : List (String × String)) (name : String) : String :=
  (aliases.lookup name).getD name

/-- The attribute-probing tail of `get_version` on a loaded module
(report.py lines 638-660): `__version__`, then `version`, then the
`VERSION_ATTRIBUTES` path (`KeyError`/`AttributeError` tolerated), then the
`VERSION_METHODS` override (`KeyError`/`ImportError` tolerated), else the
`VERSION_NOT_FOUND` sentinel. -/
def probeModule (env : Env) (name : String) (m : PyModule) : String × String :=
  match m.attrs.lookup "__version__" with
  | some v => (name, v)
  | none =>
    match m.attrs.lookup "version" with
    | some v => (name, v)
    | none =>
      match (VERSION_ATTRIBUTES.lookup name).bind (fun attr => m.attrs.lookup attr) with
      | some v => (name, v)
      | none =>
        match runVersionMethod env name with
        | some v => (name, v)
        | none => (name, VERSION_NOT_FOUND)

/-- `get_version` from the point where the (possibly aliased) name is known
(report.py lines 619-660).  On a metadata miss the source sets
`module = None` (line 627) even when a module handle was supplied, so the
lookup/import chain depends only on the name. -/
def resolveByName (env : Env) (name0 : String) : String × String :=
  let name := applyAlias env.aliases name0
  match env.metadata.lookup name with
  | some v => (name, v)
  | none =>
    match env.importMod name with
    | .importError => (name, MODULE_NOT_FOUND)
    | .otherError => (name, MODULE_TROUBLE)
    | .found m => probeModule env name m

/-- `report.get_version` (report.py lines 589-660).  A `TypeError` for a
non-string non-module argument is the `.error` case; a module handle
contributes only its `__name__` (see `resolveByName`). -/
def get_version (env : Env) (input : PyValue) : Except String (String × String) :=
  match input with
  | .str s => .ok (resolveByName env s)
  | .mod m => .ok (resolveByName env m.name)
  | .other => .error "Cannot fetch version from type"

/-- Python-dict insertion: overwrite in place if the key is present
(keeping its position), else append. -/
def dictInsert (d : List (String × String)) (k v : String) : List (String × String) :=
  if d.any (fun p => p.1 == k) then
    d.map (fun p => if p.1 == k then (p.1, v) else p)
  else d ++ [(k, v)]

/-- An argument of `PythonInfo._add_packages`: `None`, a single
name/module, or a sequence of names/modules. -/
inductive PkgArg where
  | none_
  | single (p : PyValue)
  | listOf (ps : List PyValue)

/-- Normalisation at the top of `_add_packages` (report.py lines 188-196):
a single string/module becomes a one-element list, `None` and empty
sequences become the empty list. -/
def normalizePkgs : PkgArg → List PyValue
  | .none_ => []
  | .single p => [p]
  | .listOf ps => ps

/-- The insertion loop of `_add_packages` (report.py lines 198-202):
resolve each entry and insert unless it is an optional entry that resolved
to `MODULE_NOT_FOUND`; a `TypeError` from `get_version` propagates. -/
def addPackages (env : Env) (optional : Bool) :
    List PyValue → List (String × String) → Except String (List (String × String))
  | [], reg => .ok reg
  | p :: ps, reg =>
    match get_version env p with
    | .error e => .error e
    | .ok (name, version) =>
      if version == MODULE_NOT_FOUND && optional then addPackages env optional ps reg
      else addPackages env optional ps (dictInsert reg name version)

/-- `PythonInfo.__init__` (report.py lines 166-180): build `self._packages`
by inserting `additional`, then `core`, then `optional` (the latter with
the optional flag set). -/
def buildPackages (env : Env) (additional core optional : PkgArg) :
    Except String (List (String × String)) :=
  match addPackages env false (normalizePkgs additional) [] with
  | .error e => .error e
  | .ok r1 =>
    match addPackages env false (normalizePkgs core) r1 with
    | .error e => .error e
    | .ok r2 => addPackages env true (normalizePkgs optional) r2

/-- The inserts actually performed by `addPackages` (proof-side view):
the resolved `(name, version)` pairs, with optional `MODULE_NOT_FOUND`
entries filtered out. -/
def performedInserts (env : Env) (optional : Bool) (ps : List PyValue) :
    List (String × String) :=
  ps.filterMap (fun p =>
    match get_version env p with
    | .ok (n, v) => if v == MODULE_NOT_FOUND && optional then none else some (n, v)
    | .error _ => none)

/-- All inserts performed while building a registry from the three lists. -/
def insertSeq (env : Env) (additional core optional : PkgArg) : List (String × String) :=
  performedInserts env false (normalizePkgs additional)
    ++ performedInserts env false (normalizePkgs core)
    ++ performedInserts env true (normalizePkgs optional)

/-- Keys of a registry, in iteration order. -/
def keys (d : List (String × String)) : List String := d.map Prod.fst

/-- First-occurrence dedup of a key sequence, starting from `init`. -/
def addKeys (init : List String) (new : List String) : List String :=
  new.foldl (fun acc k => if acc.any (fun y => y == k) then acc else acc ++ [k]) init

/-- Fold a sequence of inserts into a registry. -/
def foldInserts (reg : List (String × String)) (l : List (String × String)) :
    List (String × String) :=
  l.foldl (fun r q => dictInsert r q.1 q.2) reg

/-- `true` when no entry would make `get_version` raise `TypeError`. -/
def noOtherB (ps : List PyValue) : Bool :=
  ps.all (fun p => match p with | .other => false | _ => true)

/-- Python `str.isnumeric` restricted to ASCII digits (the only characters
version strings contain in practice). -/
def pyIsNumeric (s : String) : Bool :=
  !s.isEmpty && s.data.all Char.isDigit

/-- Python `int(...)` on a numeric string (only applied to such strings in
`version_tuple`). -/
def pyInt (s : String) : Nat :=
  s.data.foldl (fun n c => n * 10 + (c.toNat - 48)) 0

/-- Python `str.split(sep)` for a single-character separator, on the
character list. -/
def splitChar (sep : Char) : List Char → List (List Char)
  | [] => [[]]
  | c :: cs =>
    if c == sep then [] :: splitChar sep cs
    else
      match splitChar sep cs with
      | h :: t => (c :: h) :: t
      | [] => [[c]]

/-- Python `v.split(".")`. -/
def pySplitDot (v : String) : List String :=
  (splitChar (Char.ofNat 46) v.data).map (fun l => String.mk l)

/-- `true` exactly when an `Except` computation raised. -/
def exceptIsError {e a : Type} : Except e a → Bool
  | .error _ => true
  | .ok _ => false

/-- `knowledge.version_tuple` (knowledge.py lines 154-180): split on `.`,
pad to three components with `'0'`, raise `ValueError` for more than three
components, map non-numeric components to `0`. -/
def version_tuple (v : String) : Except String (List Nat) :=
  let split0 := pySplitDot v
  let split_v := split0 ++ List.replicate (3 - split0.length) "0"
  if split_v.length > 3 then
    .error "Version strings containing more than three parts cannot be parsed"
  else
    .ok (split_v.map (fun item => if pyIsNumeric item then pyInt item else 0))

/-- The comparison loop of `meets_version` (knowledge.py lines 218-225):
lexicographic greater-or-equal, `true` when all components are equal. -/
def lexGe : List Nat → List Nat → Bool
  | a :: as, b :: bs => if a > b then true else if a < b then false else lexGe as bs
  | _, _ => true

/-- `knowledge.meets_version` (knowledge.py lines 183-225). -/
def meets_version (version meets : String) : Except String Bool :=
  match version_tuple version with
  | .error e => .error e
  | .ok va =>
    match version_tuple meets with
    | .error e => .error e
    | .ok vb =>
      if va.length ≠ vb.length then .error "Versions are not comparable."
      else .ok (lexGe va vb)

/-- A dynamically-typed `extra_meta` value: a string, a list/tuple, or any
other Python object. -/
inductive MetaVal where
  | str (s : String)
  | seq (xs : List MetaVal)
  | other

/-- `isinstance(meta, (list, tuple)) and len(meta) == 2`. -/
def isLen2Seq : MetaVal → Bool
  | .seq ys => ys.length == 2
  | _ => false

/-- `isinstance(extra_meta[0], str)` guarded by nonemptiness. -/
def isStrHead : List MetaVal → Bool
  | MetaVal.str _ :: _ => true
  | _ => false

/-- The `extra_meta` validation in `Report.__init__` (report.py lines
334-346): `None` becomes `[]`; non-sequences raise `TypeError`; a 2-element
sequence whose first element is a string is wrapped as a single pair; every
remaining element must be a 2-element list/tuple or `TypeError` is raised. -/
def validateExtraMeta : Option MetaVal → Except String (List MetaVal)
  | none => .ok []
  | some (MetaVal.seq xs) =>
    let xs := if xs.length == 2 && isStrHead xs then [MetaVal.seq xs] else xs
    if xs.all isLen2Seq then .ok xs
    else .error "Each chunk of meta info must have two values."
  | some _ => .error "extra_meta must be a list/tuple of key-value pairs."

/-- The platform snapshot a `Report` reads (the per-instance cached values of
`PlatformInfo` / `PythonInfo` accessors).  `filesystem`/`mkl_info` use
`none` for the Python `False`/`None`. -/
structure SysEnv where
  date : String
  system : String
  cpu_count : Nat
  machine : String
  architecture : String
  filesystem : Option String
  total_ram : String
  python_environment : String
  sys_version : String
  mkl_info : Option String

/-- The state a constructed `Report` renders from: resolution environment,
platform snapshot, the installed-distribution names, the built registry
`self._packages`, and the rendering parameters. -/
structure ReportState where
  renv : Env
  env : SysEnv
  installedNames : List String
  packages : List (String × String)
  sort : Bool
  extra_meta : List (String × String)
  ncol : Nat
  text_width : Nat
  max_width : Option Nat
  show_other : Bool

/-- Lexicographic code-point comparison of character lists (Python string
`<=` on the underlying code points). -/
def charListLe : List Char → List Char → Bool
  | [], _ => true
  | _ :: _, [] => false
  | c :: cs, d :: ds =>
    if c.val < d.val then true else if d.val < c.val then false else charListLe cs ds

/-- Python string comparison. -/
def strLe (a b : String) : Bool := charListLe a.data b.data

/-- ASCII lowercase of one character (Python `str.lower` on the characters
these names contain). -/
def lowerChar (c : Char) : Char :=
  if 65 ≤ c.val && c.val ≤ 90 then Char.ofNat (c.toNat + 32) else c

/-- Python `str.lower()`. -/
def pyLower (s : String) : String := String.mk (s.data.map lowerChar)

/-- Stable insertion used by `insSort`. -/
def sortInsert {α : Type} (le : α → α → Bool) (x : α) : List α → List α
  | [] => [x]
  | y :: ys => if le x y then x :: y :: ys else y :: sortInsert le x ys

/-- Stable sort (model of Python `sorted`). -/
def insSort {α : Type} (le : α → α → Bool) : List α → List α
  | [] => []
  | x :: xs => sortInsert le x (insSort le xs)

/-- `PythonInfo.packages` (report.py lines 218-231): the registry, sorted
case-insensitively by name when the sort flag is set. -/
def packagesView (st : ReportState) : List (String × String) :=
  if st.sort then insSort (fun a b => strLe (pyLower a.1) (pyLower b.1)) st.packages
  else st.packages

/-- `PythonInfo.installed_packages` (report.py lines 233-248): resolve every
installed distribution name, in case-insensitive sorted order. -/
def installed_packages (st : ReportState) : List (String × String) :=
  (insSort (fun a b => strLe (pyLower a) (pyLower b)) st.installedNames).foldl
    (fun acc pkg => dictInsert acc (resolveByName st.renv pkg).1 (resolveByName st.renv pkg).2)
    []

/-- `PythonInfo.other_packages` (report.py lines 250-264): installed
packages minus the names already in the registry. -/
def other_packages (st : ReportState) : List (String × String) :=
  (installed_packages st).filter
    (fun p => !((packagesView st).any (fun q => q.1 == p.1)))

/-- Join with a separator (model of `str.join`). -/
def strIntercalate (sep : String) : List String → String
  | [] => ""
  | [x] => x
  | x :: xs => x ++ sep ++ strIntercalate sep xs

/-- Model of `json.dumps` on a string-to-string mapping (no escaping). -/
def jsonDumps (m : List (String × String)) : String :=
  "\x7b" ++ strIntercalate ", "
    (m.map (fun p => "\"" ++ p.1 ++ "\": \"" ++ p.2 ++ "\"")) ++ "\x7d"

/-- `self.filesystem` truthiness (`False` and the empty string are falsy). -/
def fsTruthy (st : ReportState) : Option String :=
  match st.env.filesystem with
  | some s => if s == "" then none else some s
  | none => none

/-- `self.mkl_info` truthiness (`None` and the empty string are falsy). -/
def mklTruthy (st : ReportState) : Option String :=
  match st.env.mkl_info with
  | some s => if s == "" then none else some s
  | none => none

/-- `Report.to_dict` (report.py lines 511-543).  Note line 529 of the
source: `out[meta[1]] = meta[0]` stores each extra-meta pair with its two
components swapped (value as key, key as value). -/
def to_dict (st : ReportState) : List (String × String) :=
  let out : List (String × String) := []
  let out := dictInsert out "Date" st.env.date
  let out := dictInsert out "OS" st.env.system
  let out := dictInsert out "CPU(s)" (Nat.repr st.env.cpu_count)
  let out := dictInsert out "Machine" st.env.machine
  let out := dictInsert out "Architecture" st.env.architecture
  let out := match fsTruthy st with
    | some fs => dictInsert out "File system" fs
    | none => out
  let out := if st.env.total_ram != "unknown" then dictInsert out "RAM" st.env.total_ram else out
  let out := dictInsert out "Environment" st.env.python_environment
  let out := st.extra_meta.foldl (fun o m => dictInsert o m.2 m.1) out
  let out := dictInsert out "Python" st.env.sys_version
  let out := st.packages.foldl (fun o p => dictInsert o p.1 p.2) out
  let out := dictInsert out "other" (jsonDumps (other_packages st))
  match mklTruthy st with
  | some s => dictInsert out "MKL" s
  | none => out

/-- Python whitespace (the characters relevant to these renderings). -/
def pyIsSpace (c : Char) : Bool := c == ' ' || c == '\n' || c == '\t' || c == '\r'

/-- Maximal runs of characters satisfying `p` (used for the word splitting
of `textwrap.wrap` and for the token view of a rendering). -/
def runsP (p : Char → Bool) : List Char → List (List Char)
  | [] => []
  | c :: cs =>
    if p c then
      match cs with
      | [] => [[c]]
      | c' :: _ =>
        if p c' then
          match runsP p cs with
          | t :: ts => (c :: t) :: ts
          | [] => [[c]]
        else [c] :: runsP p cs
    else runsP p cs

/-- The whitespace-separated words of a string. -/
def wordsOfStr (s : String) : List String :=
  (runsP (fun c => !pyIsSpace c) s.data).map (fun l => String.mk l)

/-- Greedy line filling of `textwrap.wrap`: words join with one space; a
word that does not fit starts a new line (long words are not broken). -/
def wrapAux (width : Nat) (cur : List String) (len : Nat) : List String → List (List String)
  | [] => [cur.reverse]
  | w :: ws =>
    if len + 1 + w.length ≤ width then wrapAux width (w :: cur) (len + 1 + w.length) ws
    else cur.reverse :: wrapAux width [w] w.length ws

/-- Wrap a word list into lines of words. -/
def wrapWords (width : Nat) : List String → List (List String)
  | [] => []
  | w :: ws => wrapAux width [w] w.length ws

/-- Join words of one wrapped line with single spaces. -/
def strJoinSp : List String → String
  | [] => ""
  | [w] => w
  | w :: ws => w ++ " " ++ strJoinSp ws

/-- Model of `textwrap.wrap(text, width)` (an external stdlib collaborator):
split into whitespace-separated words and refill greedily. -/
def pyWrap (text : String) (width : Nat) : List String :=
  (wrapWords width (wordsOfStr text)).map strJoinSp

/-- Concatenation of rendered pieces (Python `text += piece` loops). -/
def strConcat : List String → String
  | [] => ""
  | s :: ss => s ++ strConcat ss

/-- The date-line accumulation of `__repr__` (report.py lines 361-366):
first wrapped line bare, later lines indented by `len('  Date: ')`. -/
def dateLines : List String → String
  | [] => ""
  | l :: ls => l ++ "\n" ++ strConcat (ls.map (fun t => "        " ++ t ++ "\n"))

/-- A wrapped, two-space-indented block (`'  ' + txt + '\n'` per line). -/
def indentedWrap (text : String) (width : Nat) : String :=
  strConcat ((pyWrap text width).map (fun t => "  " ++ t ++ "\n"))

/-- Python `str.rstrip()`. -/
def pyRstrip (s : String) : String :=
  String.mk ((s.data.reverse.dropWhile pyIsSpace).reverse)

/-- Python `f-string` right alignment `{s:>{w}}`. -/
def pyRightAlign (s : String) (w : Nat) : String :=
  String.mk (List.replicate (w - s.length) ' ') ++ s

/-- `line_sep` inside `__repr__` (report.py lines 351-353). -/
def line_sep (width : Nat) (sep : Char) (newlines : Bool) : String :=
  let line := String.mk (List.replicate width sep)
  if newlines then "\n" ++ line ++ "\n" else line

/-- One `'{name:>{row_width}} : {version}\n'` line. -/
def rowLine (rw : Nat) (name version : String) : String :=
  pyRightAlign name rw ++ " : " ++ version ++ "\n"

/-- The fixed key list both renderers read from `to_dict`
(report.py lines 377-385 and 470-478). -/
def platformKeys : List String :=
  ["OS", "CPU(s)", "Machine", "Architecture", "RAM", "Environment", "File system"]

/-- The `(label, value)` pairs both renderers show between the date and the
Python version: the platform keys present in `to_dict`, then the extra-meta
pairs. -/
def platformPairs (st : ReportState) : List (String × String) :=
  (platformKeys.filterMap (fun k => ((to_dict st).lookup k).map (fun v => (k, v))))
    ++ st.extra_meta

/-- `row_width` (report.py lines 369-373): length of the longest package
name clamped to `[18, 40]`. -/
def row_width (st : ReportState) : Nat :=
  if st.packages.isEmpty then 18
  else min 40 (max 18 ((st.packages.map (fun p => p.1.length)).foldl max 0))

/-- `Report.__repr__` (report.py lines 348-419). -/
def report_repr (st : ReportState) : String :=
  let rw := row_width st
  let t1 := line_sep st.text_width '-' true
    ++ ("  Date: " ++ dateLines (pyWrap st.env.date (st.text_width - 8))) ++ "\n"
  let t2 := t1 ++ strConcat ((platformPairs st).map (fun p => rowLine rw p.1 p.2))
  let t3 := t2 ++ "\n" ++ indentedWrap ("Python " ++ st.env.sys_version) (st.text_width - 4)
  let t4 := t3 ++ (if st.packages.isEmpty then "" else "\n")
  let t5 := t4 ++ strConcat ((packagesView st).map (fun p => rowLine rw p.1 p.2))
  let t6 := t5 ++ (match mklTruthy st with
    | some s => "\n" ++ indentedWrap s (st.text_width - 4)
    | none => "")
  let t7 := if st.show_other then
      pyRstrip t6 ++ line_sep st.text_width '·' true
        ++ strConcat ((other_packages st).map (fun p => rowLine rw p.1 p.2))
    else t6
  t7 ++ line_sep st.text_width '-' false

/-- The `border` style string of `_repr_html_` (report.py line 424). -/
def border : String := "border: 1px solid;\x27"

/-- The `colspan` helper of `_repr_html_` (report.py lines 426-439),
returning only the appended piece. -/
def colspanCell (txt : String) (ncol nrow : Nat) : String :=
  "  <tr>\n" ++ "     <td style=\x27"
    ++ (if ncol == 1 then "text-align: left; " else "text-align: center; ")
    ++ (if nrow == 0 then "font-weight: bold; font-size: 1.2em; " else "")
    ++ border ++ " colspan=\x27"
    ++ Nat.repr (2 * ncol) ++ "\x27>" ++ txt ++ "</td>\n"
    ++ "  </tr>\n"

/-- The `cols` helper of `_repr_html_` (report.py lines 441-455), returning
only the appended piece (a row break when needed, then a name cell and a
version cell). -/
def colsCell (version name : String) (ncol i : Nat) : String :=
  (if i > 0 && i % ncol == 0 then "  </tr>\n" ++ "  <tr>\n" else "")
    ++ "    <td style=\x27text-align: " ++ (if ncol == 1 then "left" else "right") ++ ";"
    ++ " " ++ border ++ ">" ++ name ++ "</td>\n"
    ++ "    <td style=\x27text-align: left; " ++ border ++ ">" ++ version ++ "</td>\n"

/-- A loop of `cols` calls threading the html accumulator and the cell
counter `i`. -/
def colsFold (pairs : List (String × String)) (ncol : Nat) (start : String × Nat) :
    String × Nat :=
  pairs.foldl (fun acc p => (acc.1 ++ colsCell p.2 p.1 ncol acc.2, acc.2 + 1)) start

/-- Number of empty cell pairs appended by the fill-up loop
(report.py lines 495-498). -/
def padCount (ncol i : Nat) : Nat :=
  if ncol == 0 then 0 else (ncol - i % ncol) % ncol

/-- The empty padding cells (report.py lines 496-497). -/
def padCells (ncol i : Nat) : String :=
  strConcat (List.replicate (padCount ncol i)
    ("    <td style= " ++ border ++ "></td>\n" ++ "    <td style= " ++ border ++ "></td>\n"))

/-- `Report._repr_html_` (report.py lines 421-509). -/
def report_repr_html (st : ReportState) : String :=
  let h0 := "<table style=\x27border: 1.5px solid;"
    ++ (if st.max_width.getD 0 != 0 then
          " max-width: " ++ Nat.repr (st.max_width.getD 0) ++ "px;"
        else "")
    ++ "\x27>\n"
  let h1 := h0 ++ colspanCell st.env.date st.ncol 0
  let h2 := h1 ++ "  <tr>\n"
  let h3 := (colsFold (platformPairs st) st.ncol (h2, 0)).1
  let h4 := h3 ++ "  </tr>\n"
  let h5 := h4 ++ colspanCell ("Python " ++ st.env.sys_version) st.ncol 1
  let h6 := h5 ++ "  <tr>\n"
  let hp := colsFold (packagesView st) st.ncol (h6, 0)
  let h7 := hp.1 ++ padCells st.ncol hp.2
  let h8 := h7 ++ "  </tr>\n"
  let h9 := h8 ++ (match mklTruthy st with
    | some s => colspanCell s st.ncol 2
    | none => "")
  h9 ++ "</table>"

/-- Markup stripping: drop everything from a `<` to the following `>`
(the state records whether we are inside a tag). -/
def stripTagsAux : Bool → List Char → List Char
  | _, [] => []
  | false, c :: cs => if c == '<' then stripTagsAux true cs else c :: stripTagsAux false cs
  | true, c :: cs => if c == '>' then stripTagsAux false cs else stripTagsAux true cs

/-- Strip markup starting outside a tag. -/
def stripT (l : List Char) : List Char := stripTagsAux false l

/-- A token character, following the repository's own equivalence check
(`re.findall('[a-zA-Z1-9]+', ...)` in tests/test_scooby.py line 183). -/
def isTok (c : Char) : Bool := c.isAlpha || (c.isDigit && c != '0')

/-- The token sequence of a rendering. -/
def tokensOf (s : String) : List (List Char) := runsP isTok s.data

/-- `true` when a string contains no `<` (so markup stripping leaves it
untouched). -/
def noLt (s : String) : Bool := s.data.all (fun c => c != '<')

/-- Well-formedness of the data a report renders: no stray `<` in any text
that ends up inside the HTML table cells. -/
def cleanState (st : ReportState) : Bool :=
  platformKeys.all (fun k =>
    match (to_dict st).lookup k with
    | some v => noLt v
    | none => true)
  && noLt st.env.date && noLt st.env.sys_version
  && st.extra_meta.all (fun m => noLt m.1 && noLt m.2)
  && (packagesView st).all (fun p => noLt p.1 && noLt p.2)
  && (match mklTruthy st with | some s => noLt s | none => true)

/-- Token content of the label/value section (both renderers). -/
def pairsTokens (st : ReportState) : List (List Char) :=
  ((platformPairs st).map (fun p => tokensOf p.1 ++ tokensOf p.2)).flatten

/-- Token content of the package section (both renderers). -/
def pkgTokens (st : ReportState) : List (List Char) :=
  ((packagesView st).map (fun p => tokensOf p.1 ++ tokensOf p.2)).flatten

/-- Token content of the MKL section (both renderers). -/
def mklTokens (st : ReportState) : List (List Char) :=
  match mklTruthy st with
  | some s => tokensOf s
  | none => []

/-- The spec-side description of the probing chain of `get_version` on a
loaded module: the first of `__version__`, `version`, the
`VERSION_ATTRIBUTES` path and the `VERSION_METHODS` override to succeed,
else the `VERSION_NOT_FOUND` sentinel (spec section 4.1 step 4-5). -/
def probeSpec (env : Env) (name : String) (m : PyModule) : String :=
  (List.findSome? id
    [m.attrs.lookup "__version__",
     m.attrs.lookup "version",
     (VERSION_ATTRIBUTES.lookup name).bind (fun attr => m.attrs.lookup attr),
     runVersionMethod env name]).getD VERSION_NOT_FOUND

/-- Environment with nothing installed and all imports failing (witnesses). -/
def envNone : Env := ⟨[], [], fun _ => ImportOutcome.importError, none⟩

/-- Environment whose imports raise a non-import error (witnesses). -/
def envOtherErr : Env := ⟨[], [], fun _ => ImportOutcome.otherError, none⟩

/-- Environment with an alias and a metadata entry but failing imports
(witnesses). -/
def envAliased : Env :=
  ⟨[("np", "numpy")], [("numpy", "2.0")], fun _ => ImportOutcome.importError, none⟩

/-- A module exposing only a plain `version` attribute (witnesses). -/
def pkgMod : PyModule := ⟨"pkg", [("version", "7")]⟩

/-- Environment that imports `pkgMod` for every name (witnesses). -/
def envFound : Env := ⟨[], [], fun _ => ImportOutcome.found pkgMod, none⟩

/-- A minimal platform snapshot for concrete instances. -/
def sysWit : SysEnv :=
  ⟨"D1", "OSX", 1, "m", "64bit", none, "unknown", "Python", "3", none⟩

/-- Report state with one extra-meta pair `("Backend", "AGG")` (C8). -/
def stWit8 : ReportState :=
  ⟨envNone, sysWit, [], [], false, [("Backend", "AGG")], 1, 20, none, false⟩

/-- Environment with a single metadata entry (C9 concrete instances). -/
def envZ : Env := ⟨[], [("z", "1")], fun _ => ImportOutcome.importError, none⟩

/-- Clean report state with the other-packages section disabled (C9). -/
def stWit9 : ReportState :=
  ⟨envZ, sysWit, ["z"], [], false, [], 1, 20, none, false⟩

/-- The same state with the other-packages section enabled (C9). -/
def stCex9 : ReportState :=
  ⟨envZ, sysWit, ["z"], [], false, [], 1, 20, none, true⟩

/-- Platform snapshot whose Python version string contains a `<`. -/
def sysLt : SysEnv :=
  ⟨"D1", "OSX", 1, "m", "64bit", none, "unknown", "Python", "a<b2", none⟩

/-- Report state rendering a `<` inside a value (C9). -/
def stCex9b : ReportState :=
  ⟨envZ, sysLt, ["z"], [], false, [], 1, 20, none, false⟩

/-! ## Theorems -/

/-- The probing tail of `get_version` computes the spec-side
first-success-wins chain. -/
theorem probeModule_eq_spec (env : Env) (n : String) (m : PyModule) :
    probeModule env n m = (n, probeSpec env n m) := by
  unfold probeModule probeSpec
  cases h1 : m.attrs.lookup "__version__" <;>
    cases h2 : m.attrs.lookup "version" <;>
      cases h3 : (VERSION_ATTRIBUTES.lookup n).bind (fun attr => m.attrs.lookup attr) <;>
        cases h4 : runVersionMethod env n <;>
          simp [List.findSome?, h1, h2, h3, h4]

/-- C1: a bare package-name string is aliased first; a hit in the
installed-package-metadata index returns the aliased name and the declared
version immediately, independently of the import subsystem (so resolution
succeeds even when importing the module would fail). -/
theorem get_version_metadata_first (env : Env) (s v : String)
    (h : env.metadata.lookup (applyAlias env.aliases s) = some v) :
    get_version env (.str s) = .ok (applyAlias env.aliases s, v)
    ∧ ∀ f : String → ImportOutcome,
        get_version { env with importMod := f } (.str s)
          = .ok (applyAlias env.aliases s, v) := by
  constructor
  · simp [get_version, resolveByName, h]
  · intro f
    simp [get_version, resolveByName]
    simp [applyAlias] at h ⊢
    simp [h]

/-- C2: `get_version` returns a value (never raises) for every string or
module input; it raises `TypeError` exactly for other inputs; with no
metadata entry, a not-found import failure yields `MODULE_NOT_FOUND` and
any other import exception yields `MODULE_TROUBLE`. -/
theorem get_version_total (env : Env) (input : PyValue) :
    (input ≠ .other → ∃ r, get_version env input = .ok r)
    ∧ ((∃ e, get_version env input = .error e) ↔ input = .other)
    ∧ (∀ s : String,
        (input = .str s ∨ ∃ m : PyModule, input = .mod m ∧ m.name = s) →
        env.metadata.lookup (applyAlias env.aliases s) = none →
        (env.importMod (applyAlias env.aliases s) = .importError →
          get_version env input = .ok (applyAlias env.aliases s, MODULE_NOT_FOUND))
        ∧ (env.importMod (applyAlias env.aliases s) = .otherError →
          get_version env input = .ok (applyAlias env.aliases s, MODULE_TROUBLE))) := by
  refine ⟨?_, ?_, ?_⟩
  · intro hne
    cases input with
    | str s => exact ⟨_, rfl⟩
    | mod m => exact ⟨_, rfl⟩
    | other => exact absurd rfl hne
  · constructor
    · rintro ⟨e, he⟩
      cases input <;> simp [get_version] at he ⊢
    · rintro rfl
      exact ⟨_, rfl⟩
  · intro s hs hmeta
    constructor
    · intro himp
      rcases hs with rfl | ⟨m, rfl, rfl⟩ <;>
        simp [get_version, resolveByName, hmeta, himp]
    · intro himp
      rcases hs with rfl | ⟨m, rfl, rfl⟩ <;>
        simp [get_version, resolveByName, hmeta, himp]

/-- C2 witness: concrete runs of the three parts. -/
theorem get_version_total_witness :
    (∃ r, get_version envNone (.str "foo") = .ok r)
    ∧ get_version envNone (.str "foo") = .ok ("foo", MODULE_NOT_FOUND)
    ∧ get_version envOtherErr (.str "bar") = .ok ("bar", MODULE_TROUBLE) := by
  refine ⟨?_, ?_, ?_⟩
  · exact (get_version_total envNone (.str "foo")).1 (by simp)
  · exact (((get_version_total envNone (.str "foo")).2.2 "foo" (Or.inl rfl) rfl).1 rfl)
  · exact (((get_version_total envOtherErr (.str "bar")).2.2 "bar" (Or.inl rfl) rfl).2 rfl)

/-- C1 witness: a metadata hit for an aliased name resolves without import
even though every import fails. -/
theorem get_version_metadata_first_witness :
    get_version envAliased (.str "np") = .ok ("numpy", "2.0") :=
  (get_version_metadata_first envAliased "np" "2.0" rfl).1

/-- C3: on a metadata miss with a successful import (also for a supplied
module handle, which the source re-imports by name), `get_version` probes
`__version__`, then `version`, then the `VERSION_ATTRIBUTES` path, then the
`VERSION_METHODS` override (an override failing to import counts as
no-match), first success winning, else returns `VERSION_NOT_FOUND`. -/
theorem get_version_probe_order (env : Env) :
    (∀ (s : String) (m : PyModule),
      env.metadata.lookup (applyAlias env.aliases s) = none →
      env.importMod (applyAlias env.aliases s) = .found m →
      get_version env (.str s)
        = .ok (applyAlias env.aliases s, probeSpec env (applyAlias env.aliases s) m))
    ∧ (∀ (m0 m : PyModule),
      env.metadata.lookup (applyAlias env.aliases m0.name) = none →
      env.importMod (applyAlias env.aliases m0.name) = .found m →
      get_version env (.mod m0)
        = .ok (applyAlias env.aliases m0.name, probeSpec env (applyAlias env.aliases m0.name) m)) := by
  constructor
  · intro s m hmeta himp
    simp [get_version, resolveByName, hmeta, himp, probeModule_eq_spec]
  · intro m0 m hmeta himp
    simp [get_version, resolveByName, hmeta, himp, probeModule_eq_spec]

/-- C3 witness: a module with only a `version` attribute resolves to it;
the `__version__` attribute wins when both are present. -/
theorem get_version_probe_order_witness :
    get_version envFound (.str "pkg") = .ok ("pkg", "7") :=
  (get_version_probe_order envFound).1 "pkg" pkgMod rfl rfl


@[simp] theorem exceptIsError_error {e a : Type} (x : e) :
    exceptIsError (Except.error x : Except e a) = true := rfl

@[simp] theorem exceptIsError_ok {e a : Type} (x : a) :
    exceptIsError (Except.ok x : Except e a) = false := rfl

/-- A version string with more than three dot-separated components makes
`version_tuple` raise the format error. -/
theorem version_tuple_error (v : String) (h : 3 < (pySplitDot v).length) :
    version_tuple v
      = .error "Version strings containing more than three parts cannot be parsed" := by
  have hc : 3 < (pySplitDot v).length + (3 - (pySplitDot v).length) := by omega
  simp [version_tuple, hc]

/-- C6: `meets_version` on the documented examples (non-numeric components
count as 0), and any version string with more than three dot-separated
components makes the comparison raise the format error immediately,
whichever argument it is. -/
theorem meets_version_claims :
    meets_version "2" "1" = .ok true
    ∧ meets_version "0.25.1" "0.25.2" = .ok false
    ∧ meets_version "0.28.0dev0" "0.25.2" = .ok true
    ∧ (∀ v w : String, 3 < (pySplitDot v).length →
        exceptIsError (meets_version v w) = true)
    ∧ (∀ v w : String, 3 < (pySplitDot w).length →
        exceptIsError (meets_version v w) = true) := by
  refine ⟨rfl, rfl, rfl, ?_, ?_⟩
  · intro v w h
    simp [meets_version, version_tuple_error v h]
  · intro v w h
    cases hv : version_tuple v with
    | error e => simp [meets_version, hv]
    | ok va => simp [meets_version, hv, version_tuple_error w h]

/-- C6 witness: the four-component example of the test suite errors. -/
theorem meets_version_claims_witness :
    exceptIsError (meets_version "0.25.2.0" "0.26") = true :=
  meets_version_claims.2.2.2.1 "0.25.2.0" "0.26" (by decide)

@[simp] theorem isLen2Seq_str (s : String) : isLen2Seq (.str s) = false := rfl

@[simp] theorem isLen2Seq_other : isLen2Seq .other = false := rfl

@[simp] theorem isLen2Seq_seq (ys : List MetaVal) :
    isLen2Seq (.seq ys) = (ys.length == 2) := rfl

@[simp] theorem isStrHead_nil : isStrHead [] = false := rfl

@[simp] theorem isStrHead_cons_str (s : String) (t : List MetaVal) :
    isStrHead (.str s :: t) = true := rfl

@[simp] theorem isStrHead_cons_seq (ys : List MetaVal) (t : List MetaVal) :
    isStrHead (.seq ys :: t) = false := rfl

@[simp] theorem isStrHead_cons_other (t : List MetaVal) :
    isStrHead (.other :: t) = false := rfl

/-- Unfolding of the sequence case of `validateExtraMeta`. -/
theorem validateExtraMeta_seq (xs : List MetaVal) :
    validateExtraMeta (some (.seq xs)) =
      (if (if xs.length == 2 && isStrHead xs then [MetaVal.seq xs] else xs).all isLen2Seq
       then .ok (if xs.length == 2 && isStrHead xs then [MetaVal.seq xs] else xs)
       else .error "Each chunk of meta info must have two values.") := rfl

/-- C7: `extra_meta` validation accepts a single string-keyed pair and any
sequence all of whose elements are 2-element sequences (one pair or several
pairs); it rejects with a `TypeError` a bare string, any non-sequence, and
any sequence (other than the wrapped single-pair shape) containing an
element that is not a 2-element sequence -- at construction time, before
any rendering. -/
theorem extra_meta_validation :
    (∀ (k : String) (v : MetaVal),
      validateExtraMeta (some (.seq [.str k, v])) = .ok [.seq [.str k, v]])
    ∧ (∀ xs : List MetaVal, (∀ x ∈ xs, isLen2Seq x = true) →
        validateExtraMeta (some (.seq xs)) = .ok xs)
    ∧ (∀ s : String, exceptIsError (validateExtraMeta (some (.str s))) = true)
    ∧ exceptIsError (validateExtraMeta (some .other)) = true
    ∧ (∀ xs : List MetaVal,
        ¬(xs.length = 2 ∧ isStrHead xs = true) →
        (∃ x ∈ xs, isLen2Seq x = false) →
        exceptIsError (validateExtraMeta (some (.seq xs))) = true) := by
  refine ⟨?_, ?_, ?_, rfl, ?_⟩
  · intro k v
    simp [validateExtraMeta_seq]
  · intro xs hall
    have hguard : (xs.length == 2 && isStrHead xs) = false := by
      cases xs with
      | nil => simp
      | cons x xt =>
        have hx := hall x (by simp)
        cases x with
        | str s => simp at hx
        | seq ys => simp
        | other => simp at hx
    have hall2 : xs.all isLen2Seq = true := List.all_eq_true.mpr hall
    rw [validateExtraMeta_seq, hguard]
    simp [hall2]
  · intro s
    rfl
  · intro xs hshape hex
    obtain ⟨x, hmem, hx⟩ := hex
    have hguard : (xs.length == 2 && isStrHead xs) = false := by
      cases hg : (xs.length == 2 && isStrHead xs) with
      | false => rfl
      | true =>
        rw [Bool.and_eq_true, beq_iff_eq] at hg
        exact absurd ⟨hg.1, hg.2⟩ hshape
    have hall : xs.all isLen2Seq = false := by
      cases ha : xs.all isLen2Seq with
      | false => rfl
      | true =>
        have := List.all_eq_true.mp ha x hmem
        rw [hx] at this
        exact absurd this (by decide)
    rw [validateExtraMeta_seq, hguard]
    simp [hall]

/-- C7 witness: the shapes of the test suite -- accepted: a single pair, a
one-pair sequence, a two-pair sequence; rejected: a bare string and a
sequence mixing a pair with a bare string. -/
theorem extra_meta_validation_witness :
    validateExtraMeta (some (.seq [.str "key", .str "value"]))
      = .ok [.seq [.str "key", .str "value"]]
    ∧ validateExtraMeta (some (.seq [.seq [.str "key", .str "value"]]))
      = .ok [.seq [.str "key", .str "value"]]
    ∧ validateExtraMeta (some (.seq [.seq [.str "key", .str "value"],
        .seq [.str "another", .str "one"]]))
      = .ok [.seq [.str "key", .str "value"], .seq [.str "another", .str "one"]]
    ∧ exceptIsError (validateExtraMeta (some (.str "foo"))) = true
    ∧ exceptIsError (validateExtraMeta (some (.seq [.seq [.str "key", .str "value"],
        .str "foo"]))) = true := by
  refine ⟨?_, ?_, ?_, ?_, ?_⟩
  · exact extra_meta_validation.1 "key" (.str "value")
  · refine extra_meta_validation.2.1 [.seq [.str "key", .str "value"]] ?_
    intro x hx
    simp only [List.mem_singleton] at hx
    subst hx
    rfl
  · refine extra_meta_validation.2.1
      [.seq [.str "key", .str "value"], .seq [.str "another", .str "one"]] ?_
    intro x hx
    simp only [List.mem_cons, List.mem_singleton] at hx
    rcases hx with rfl | rfl | h
    · rfl
    · rfl
    · simp at h
  · exact extra_meta_validation.2.2.1 "foo"
  · refine extra_meta_validation.2.2.2.2 [.seq [.str "key", .str "value"], .str "foo"]
      ?_ ⟨.str "foo", by simp, rfl⟩
    rintro ⟨h2, hh⟩
    simp at hh

theorem keysAny (d : List (String × String)) (k : String) :
    (keys d).any (fun y => y == k) = d.any (fun p => p.1 == k) := by
  induction d with
  | nil => rfl
  | cons a t ih =>
    show ((a.1 :: keys t).any fun y => y == k) = _
    rw [List.any_cons, List.any_cons, ih]

theorem dictInsert_nil (k v : String) : dictInsert [] k v = [(k, v)] := rfl

theorem map_upd_fst (d : List (String × String)) (k v : String) :
    keys (d.map (fun p => if p.1 == k then (p.1, v) else p)) = keys d := by
  rw [keys, keys, List.map_map]
  apply List.map_congr_left
  intro p _
  show (if p.1 == k then (p.1, v) else p).1 = p.1
  cases hq : (p.1 == k) with
  | true => rfl
  | false => rfl

theorem dictInsert_cons_eq (a : String × String) (t : List (String × String))
    (k v : String) (h : a.1 = k) :
    dictInsert (a :: t) k v
      = (a.1, v) :: t.map (fun p => if p.1 == k then (p.1, v) else p) := by
  unfold dictInsert
  have hb : (a.1 == k) = true := beq_iff_eq.mpr h
  rw [List.any_cons, hb, Bool.true_or, if_pos rfl, List.map_cons, hb]
  rfl

theorem dictInsert_cons_ne (a : String × String) (t : List (String × String))
    (k v : String) (h : a.1 ≠ k) :
    dictInsert (a :: t) k v = a :: dictInsert t k v := by
  unfold dictInsert
  have hb : (a.1 == k) = false := beq_eq_false_iff_ne.mpr h
  rw [List.any_cons, hb, Bool.false_or]
  by_cases ht : t.any (fun p => p.1 == k)
  · rw [if_pos ht, if_pos ht, List.map_cons, hb]
    rfl
  · rw [if_neg ht, if_neg ht, List.cons_append]

theorem keys_dictInsert (d : List (String × String)) (k v : String) :
    keys (dictInsert d k v)
      = if (keys d).any (fun y => y == k) then keys d else keys d ++ [k] := by
  rw [keysAny]
  by_cases h : d.any (fun p => p.1 == k)
  · rw [if_pos h]
    unfold dictInsert
    rw [if_pos h]
    exact map_upd_fst d k v
  · rw [if_neg h]
    unfold dictInsert
    rw [if_neg h, keys, List.map_append]
    rfl

theorem lookup_map_upd_ne (t : List (String × String)) (k v k' : String)
    (h : k' ≠ k) :
    (t.map (fun p => if p.1 == k then (p.1, v) else p)).lookup k' = t.lookup k' := by
  induction t with
  | nil => rfl
  | cons a t ih =>
    rw [List.map_cons]
    cases hak : (a.1 == k) with
    | true =>
      have hba : (k' == a.1) = false := by
        apply beq_eq_false_iff_ne.mpr
        intro hc
        rw [beq_iff_eq] at hak
        exact h (hc.trans hak)
      show List.lookup k' ((a.1, v) :: _) = List.lookup k' (a :: t)
      simp only [List.lookup, hba]
      exact ih
    | false =>
      show List.lookup k' (a :: _) = List.lookup k' (a :: t)
      cases hba : (k' == a.1) with
      | true => simp only [List.lookup, hba]
      | false =>
        simp only [List.lookup, hba]
        exact ih

theorem lookup_dictInsert_self (d : List (String × String)) (k v : String) :
    (dictInsert d k v).lookup k = some v := by
  induction d with
  | nil =>
    rw [dictInsert_nil]
    simp only [List.lookup, beq_self_eq_true]
  | cons a t ih =>
    by_cases hak : a.1 = k
    · rw [dictInsert_cons_eq a t k v hak]
      have hb : (k == a.1) = true := beq_iff_eq.mpr hak.symm
      simp only [List.lookup, hb]
    · rw [dictInsert_cons_ne a t k v hak]
      have hb : (k == a.1) = false := beq_eq_false_iff_ne.mpr (fun hc => hak hc.symm)
      simp only [List.lookup, hb]
      exact ih

theorem lookup_dictInsert_ne (d : List (String × String)) (k v k' : String)
    (h : k' ≠ k) : (dictInsert d k v).lookup k' = d.lookup k' := by
  induction d with
  | nil =>
    rw [dictInsert_nil]
    have hb : (k' == k) = false := beq_eq_false_iff_ne.mpr h
    simp only [List.lookup, hb]
  | cons a t ih =>
    by_cases hak : a.1 = k
    · rw [dictInsert_cons_eq a t k v hak]
      by_cases hq : k' = a.1
      · exact absurd (hq.trans hak) h
      · have hb : (k' == a.1) = false := beq_eq_false_iff_ne.mpr hq
        simp only [List.lookup, hb]
        exact lookup_map_upd_ne t k v k' h
    · rw [dictInsert_cons_ne a t k v hak]
      cases hq : (k' == a.1) with
      | true => simp only [List.lookup, hq]
      | false =>
        simp only [List.lookup, hq]
        exact ih

theorem lookup_append_str (l1 l2 : List (String × String)) (k : String) :
    (l1 ++ l2).lookup k
      = match l1.lookup k with
        | some v => some v
        | none => l2.lookup k := by
  induction l1 with
  | nil => rfl
  | cons a t ih =>
    rw [List.cons_append]
    cases hq : (k == a.1) with
    | true => simp only [List.lookup, hq]
    | false =>
      simp only [List.lookup, hq]
      exact ih

theorem foldInserts_cons (reg : List (String × String)) (q : String × String)
    (t : List (String × String)) :
    foldInserts reg (q :: t) = foldInserts (dictInsert reg q.1 q.2) t := rfl

theorem addKeys_cons (init : List String) (x : String) (xs : List String) :
    addKeys init (x :: xs)
      = addKeys (if init.any (fun y => y == x) then init else init ++ [x]) xs := rfl

theorem keys_foldInserts (l : List (String × String)) (reg : List (String × String)) :
    keys (foldInserts reg l) = addKeys (keys reg) (keys l) := by
  induction l generalizing reg with
  | nil => rfl
  | cons q t ih =>
    rw [foldInserts_cons, ih]
    show _ = addKeys (if (keys reg).any (fun y => y == q.1) then keys reg
        else keys reg ++ [q.1]) (keys t)
    rw [keys_dictInsert]

theorem lookup_foldInserts (l : List (String × String)) (reg : List (String × String))
    (k : String) :
    (foldInserts reg l).lookup k
      = match l.reverse.lookup k with
        | some v => some v
        | none => reg.lookup k := by
  induction l generalizing reg with
  | nil => rfl
  | cons q t ih =>
    rw [foldInserts_cons, ih, List.reverse_cons, lookup_append_str]
    cases h : t.reverse.lookup k with
    | some v => rfl
    | none =>
      by_cases hq : k = q.1
      · subst hq
        rw [lookup_dictInsert_self]
        simp only [List.lookup, beq_self_eq_true]
      · rw [lookup_dictInsert_ne reg q.1 q.2 k hq]
        have hb : (k == q.1) = false := beq_eq_false_iff_ne.mpr hq
        simp only [List.lookup, hb]

theorem mem_addKeys (init : List String) (new : List String) (k : String) :
    k ∈ addKeys init new ↔ k ∈ init ∨ k ∈ new := by
  induction new generalizing init with
  | nil => simp [addKeys]
  | cons x xs ih =>
    rw [addKeys_cons, ih]
    by_cases h : init.any (fun y => y == x)
    · rw [if_pos h]
      have hx : x ∈ init := by
        rcases List.any_eq_true.mp h with ⟨y, hy, hyx⟩
        rw [beq_iff_eq] at hyx
        rw [← hyx]
        exact hy
      constructor
      · rintro (hi | hxs)
        · exact Or.inl hi
        · exact Or.inr (List.mem_cons_of_mem x hxs)
      · rintro (hi | hxxs)
        · exact Or.inl hi
        · rcases List.mem_cons.mp hxxs with rfl | hxs
          · exact Or.inl hx
          · exact Or.inr hxs
    · rw [if_neg h]
      constructor
      · rintro (hi | hxs)
        · rcases List.mem_append.mp hi with hi | hx1
          · exact Or.inl hi
          · exact Or.inr (List.mem_cons.mpr (Or.inl (List.mem_singleton.mp hx1)))
        · exact Or.inr (List.mem_cons_of_mem x hxs)
      · rintro (hi | hxxs)
        · exact Or.inl (List.mem_append.mpr (Or.inl hi))
        · rcases List.mem_cons.mp hxxs with rfl | hxs
          · exact Or.inl (List.mem_append.mpr (Or.inr (by simp)))
          · exact Or.inr hxs

theorem addKeys_nodup (new : List String) (init : List String) (h : init.Nodup) :
    (addKeys init new).Nodup := by
  induction new generalizing init with
  | nil => exact h
  | cons x xs ih =>
    rw [addKeys_cons]
    by_cases hc : init.any (fun y => y == x)
    · rw [if_pos hc]
      exact ih init h
    · rw [if_neg hc]
      apply ih
      have hx : x ∉ init := by
        intro hmem
        have hself : (fun y => y == x) x = true := by
          show (x == x) = true
          exact beq_self_eq_true x
        exact hc (List.any_eq_true.mpr ⟨x, hmem, hself⟩)
      simp [List.nodup_append, h, hx]

theorem performedInserts_cons (env : Env) (opt : Bool) (p : PyValue) (t : List PyValue) :
    performedInserts env opt (p :: t)
      = (match get_version env p with
         | .ok (n, v) =>
           if v == MODULE_NOT_FOUND && opt then performedInserts env opt t
           else (n, v) :: performedInserts env opt t
         | .error _ => performedInserts env opt t) := by
  unfold performedInserts
  rw [List.filterMap_cons]
  cases hg : get_version env p with
  | error e => simp
  | ok r =>
    obtain ⟨n, v⟩ := r
    cases hc : (v == MODULE_NOT_FOUND && opt) with
    | true => simp [hc]
    | false => simp [hc]

theorem addPackages_ok (env : Env) (opt : Bool) (ps : List PyValue)
    (reg : List (String × String)) (h : noOtherB ps = true) :
    addPackages env opt ps reg = .ok (foldInserts reg (performedInserts env opt ps)) := by
  induction ps generalizing reg with
  | nil => rfl
  | cons p t ih =>
    rw [noOtherB, List.all_cons, Bool.and_eq_true] at h
    obtain ⟨hp, ht⟩ := h
    have ht' : noOtherB t = true := ht
    rw [performedInserts_cons]
    cases p with
    | other => simp at hp
    | str s =>
      rcases hres : resolveByName env s with ⟨n, v⟩
      have hg : get_version env (.str s) = .ok (n, v) := by
        rw [get_version, hres]
      rw [addPackages, hg]
      cases hc : (v == MODULE_NOT_FOUND && opt) with
      | true =>
        simp only [hc, if_true]
        exact ih reg ht'
      | false =>
        simp only [hc, Bool.false_eq_true, if_false, foldInserts_cons]
        exact ih (dictInsert reg n v) ht'
    | mod m =>
      rcases hres : resolveByName env m.name with ⟨n, v⟩
      have hg : get_version env (.mod m) = .ok (n, v) := by
        rw [get_version, hres]
      rw [addPackages, hg]
      cases hc : (v == MODULE_NOT_FOUND && opt) with
      | true =>
        simp only [hc, if_true]
        exact ih reg ht'
      | false =>
        simp only [hc, Bool.false_eq_true, if_false, foldInserts_cons]
        exact ih (dictInsert reg n v) ht'

theorem buildPackages_ok (env : Env) (a c o : PkgArg)
    (ha : noOtherB (normalizePkgs a) = true)
    (hc : noOtherB (normalizePkgs c) = true)
    (ho : noOtherB (normalizePkgs o) = true) :
    buildPackages env a c o = .ok (foldInserts [] (insertSeq env a c o)) := by
  unfold buildPackages
  rw [addPackages_ok env false (normalizePkgs a) [] ha]
  dsimp only
  rw [addPackages_ok env false (normalizePkgs c) _ hc]
  dsimp only
  rw [addPackages_ok env true (normalizePkgs o) _ ho]
  simp [insertSeq, foldInserts, List.foldl_append]

/-- C4: for every combination of additional/core/optional inputs the built
registry holds each resolved name at most once; a later insert of the same
resolved name overwrites the version (the lookup equals the lookup in the
reversed insert sequence, i.e. the last insert wins) while the iteration
position is the first-insertion position (the key order is the
first-occurrence dedup of the insert sequence). -/
theorem registry_dedup_last_wins (env : Env) (a c o : PkgArg)
    (ha : noOtherB (normalizePkgs a) = true)
    (hc : noOtherB (normalizePkgs c) = true)
    (ho : noOtherB (normalizePkgs o) = true) :
    ∃ reg, buildPackages env a c o = .ok reg
      ∧ (keys reg).Nodup
      ∧ keys reg = addKeys [] (keys (insertSeq env a c o))
      ∧ ∀ k, reg.lookup k = (insertSeq env a c o).reverse.lookup k := by
  refine ⟨foldInserts [] (insertSeq env a c o),
    buildPackages_ok env a c o ha hc ho, ?_, ?_, ?_⟩
  · rw [keys_foldInserts]
    exact addKeys_nodup _ [] List.nodup_nil
  · rw [keys_foldInserts]
    rfl
  · intro k
    rw [lookup_foldInserts]
    cases h : (insertSeq env a c o).reverse.lookup k <;> rfl

/-- C4 witness: the alias `np -> numpy` makes additional and core insert
the same resolved name. -/
theorem registry_dedup_last_wins_witness :
    ∃ reg, buildPackages envAliased (.single (.str "np")) (.single (.str "numpy")) .none_
        = .ok reg
      ∧ (keys reg).Nodup
      ∧ keys reg
          = addKeys [] (keys (insertSeq envAliased
              (.single (.str "np")) (.single (.str "numpy")) .none_))
      ∧ ∀ k, reg.lookup k
          = (insertSeq envAliased
              (.single (.str "np")) (.single (.str "numpy")) .none_).reverse.lookup k :=
  registry_dedup_last_wins envAliased (.single (.str "np")) (.single (.str "numpy")) .none_
    rfl rfl rfl

/-- C5: an optional entry resolving to `MODULE_NOT_FOUND` is silently
discarded (its name is absent from the registry whenever no other entry
inserts that name), while the same entry supplied via core or additional is
recorded with the sentinel as its version. -/
theorem optional_not_found_dropped :
    (∀ (env : Env) (a c o : PkgArg) (name : String),
      noOtherB (normalizePkgs a) = true →
      noOtherB (normalizePkgs c) = true →
      noOtherB (normalizePkgs o) = true →
      (∀ p ∈ normalizePkgs a, ∀ v, get_version env p = .ok (name, v) → False) →
      (∀ p ∈ normalizePkgs c, ∀ v, get_version env p = .ok (name, v) → False) →
      (∀ p ∈ normalizePkgs o, ∀ v, get_version env p = .ok (name, v) →
        v = MODULE_NOT_FOUND) →
      ∀ reg, buildPackages env a c o = .ok reg → name ∉ keys reg)
    ∧ (∀ (env : Env) (p : PyValue) (name : String),
        get_version env p = .ok (name, MODULE_NOT_FOUND) →
        buildPackages env .none_ .none_ (.single p) = .ok []
        ∧ buildPackages env .none_ (.single p) .none_ = .ok [(name, MODULE_NOT_FOUND)]
        ∧ buildPackages env (.single p) .none_ .none_ = .ok [(name, MODULE_NOT_FOUND)]) := by
  constructor
  · intro env a c o name ha hc ho hadd hcore hopt reg hreg
    rw [buildPackages_ok env a c o ha hc ho] at hreg
    have hreg' : reg = foldInserts [] (insertSeq env a c o) := (Except.ok.inj hreg).symm
    subst hreg'
    rw [keys_foldInserts]
    intro hmem
    rw [mem_addKeys] at hmem
    rcases hmem with h0 | hmem
    · exact absurd h0 (List.not_mem_nil name)
    · rw [keys] at hmem
      rcases List.mem_map.mp hmem with ⟨pair, hpair, hfst⟩
      rw [insertSeq] at hpair
      have handle : ∀ (opt : Bool) (ps : List PyValue),
          (∀ p ∈ ps, ∀ v, get_version env p = .ok (name, v) →
            (opt = true → v = MODULE_NOT_FOUND) ∧ (opt = false → False)) →
          pair ∈ performedInserts env opt ps → False := by
        intro opt ps hps hmemp
        rcases List.mem_filterMap.mp hmemp with ⟨p, hp, hf⟩
        cases hg : get_version env p with
        | error e => rw [hg] at hf; simp at hf
        | ok r =>
          obtain ⟨n, v⟩ := r
          rw [hg] at hf
          cases hcnd : (v == MODULE_NOT_FOUND && opt) with
          | true => simp [hcnd] at hf
          | false =>
            simp [hcnd] at hf
            have hn : n = name := by rw [← hf] at hfst; exact hfst
            subst hn
            cases opt with
            | false => exact (hps p hp v hg).2 rfl
            | true =>
              have hv := (hps p hp v hg).1 rfl
              subst hv
              simp at hcnd
      rcases List.mem_append.mp hpair with h12 | h3
      · rcases List.mem_append.mp h12 with h1 | h2
        · exact handle false (normalizePkgs a)
            (fun p hp v hg => ⟨fun hh => absurd hh (by simp), fun _ => hadd p hp v hg⟩) h1
        · exact handle false (normalizePkgs c)
            (fun p hp v hg => ⟨fun hh => absurd hh (by simp), fun _ => hcore p hp v hg⟩) h2
      · exact handle true (normalizePkgs o)
          (fun p hp v hg => ⟨fun _ => hopt p hp v hg, fun hh => absurd hh (by simp)⟩) h3
  · intro env p name hg
    refine ⟨?_, ?_, ?_⟩
    · simp [buildPackages, addPackages, hg]
    · simp [buildPackages, addPackages, hg, dictInsert]
    · simp [buildPackages, addPackages, hg, dictInsert]

/-- C5 witness: a never-importable name is dropped from optional but kept
by core/additional. -/
theorem optional_not_found_dropped_witness :
    "foo" ∉ keys ([] : List (String × String))
    ∧ buildPackages envNone .none_ .none_ (.single (.str "foo")) = .ok []
    ∧ buildPackages envNone .none_ (.single (.str "foo")) .none_
        = .ok [("foo", MODULE_NOT_FOUND)]
    ∧ buildPackages envNone (.single (.str "foo")) .none_ .none_
        = .ok [("foo", MODULE_NOT_FOUND)] := by
  have hg : get_version envNone (.str "foo") = .ok ("foo", MODULE_NOT_FOUND) := rfl
  have h2 := optional_not_found_dropped.2 envNone (.str "foo") "foo" hg
  refine ⟨?_, h2.1, h2.2.1, h2.2.2⟩
  refine optional_not_found_dropped.1 envNone .none_ .none_ (.single (.str "foo")) "foo"
    rfl rfl rfl
    (fun p hp => absurd hp (List.not_mem_nil p))
    (fun p hp => absurd hp (List.not_mem_nil p))
    ?_ [] h2.1
  intro p hp v hgv
  have hp2 : p = PyValue.str "foo" := by simpa [normalizePkgs] using hp
  subst hp2
  have h3 := Except.ok.inj (hg.symm.trans hgv)
  exact ((Prod.mk.injEq _ _ _ _).mp h3).2.symm

/-- C10: only `MODULE_NOT_FOUND` drops an optional entry: an optional
entry resolving to `MODULE_TROUBLE` or `VERSION_NOT_FOUND` is inserted with
that sentinel as its version. -/
theorem optional_trouble_kept :
    (∀ (env : Env) (p : PyValue) (name v : String),
        get_version env p = .ok (name, v) →
        (v = MODULE_TROUBLE ∨ v = VERSION_NOT_FOUND) →
        buildPackages env .none_ .none_ (.single p) = .ok [(name, v)])
    ∧ (∀ (env : Env) (a c o : PkgArg) (p : PyValue) (name v : String),
        noOtherB (normalizePkgs a) = true →
        noOtherB (normalizePkgs c) = true →
        noOtherB (normalizePkgs o) = true →
        p ∈ normalizePkgs o →
        get_version env p = .ok (name, v) →
        v ≠ MODULE_NOT_FOUND →
        ∀ reg, buildPackages env a c o = .ok reg → name ∈ keys reg) := by
  constructor
  · intro env p name v hg hv
    have hb : (v == MODULE_NOT_FOUND) = false := by
      apply beq_eq_false_iff_ne.mpr
      rcases hv with rfl | rfl <;> decide
    simp [buildPackages, addPackages, hg, hb, dictInsert]
  · intro env a c o p name v ha hc ho hp hg hv reg hreg
    rw [buildPackages_ok env a c o ha hc ho] at hreg
    have hreg' : reg = foldInserts [] (insertSeq env a c o) := (Except.ok.inj hreg).symm
    subst hreg'
    rw [keys_foldInserts, mem_addKeys]
    right
    rw [keys]
    apply List.mem_map.mpr
    refine ⟨(name, v), ?_, rfl⟩
    rw [insertSeq]
    apply List.mem_append.mpr
    right
    apply List.mem_filterMap.mpr
    refine ⟨p, hp, ?_⟩
    rw [hg]
    have hb : (v == MODULE_NOT_FOUND) = false := beq_eq_false_iff_ne.mpr hv
    simp [hb]

/-- C10 witness: an import raising a non-import error stays in the
registry with the `MODULE_TROUBLE` sentinel. -/
theorem optional_trouble_kept_witness :
    buildPackages envOtherErr .none_ .none_ (.single (.str "bar"))
      = .ok [("bar", MODULE_TROUBLE)]
    ∧ "bar" ∈ keys [("bar", MODULE_TROUBLE)] := by
  have hg : get_version envOtherErr (.str "bar") = .ok ("bar", MODULE_TROUBLE) := rfl
  have h1 := optional_trouble_kept.1 envOtherErr (.str "bar") "bar" MODULE_TROUBLE hg
    (Or.inl rfl)
  refine ⟨h1, ?_⟩
  exact optional_trouble_kept.2 envOtherErr .none_ .none_ (.single (.str "bar"))
    (.str "bar") "bar" MODULE_TROUBLE rfl rfl rfl (List.mem_singleton.mpr rfl) hg
    (by decide) [("bar", MODULE_TROUBLE)] h1

/-- C8: the dict rendering at a concrete report with the extra-meta pair
`("Backend", "AGG")`.  `Report.to_dict` (report.py line 529) stores
`out[meta[1]] = meta[0]`, i.e. the extra-meta VALUE becomes the dict key
and the KEY becomes the dict value -- the opposite of the claim (and of
`__repr__`/`_repr_html_`, which render `meta[0]` as the label, report.py
lines 388-389 and 481-482).  All other keys are as the claim states. -/
theorem to_dict_extra_meta_swapped :
    (to_dict stWit8).lookup "Backend" = none
    ∧ (to_dict stWit8).lookup "AGG" = some "Backend"
    ∧ to_dict stWit8
        = [("Date", "D1"), ("OS", "OSX"), ("CPU(s)", "1"), ("Machine", "m"),
           ("Architecture", "64bit"), ("Environment", "Python"), ("AGG", "Backend"),
           ("Python", "3"), ("other", "\x7b\x7d")] := by
  refine ⟨rfl, rfl, rfl⟩

theorem runsP_cons (p : Char → Bool) (c : Char) (cs : List Char) :
    runsP p (c :: cs)
      = if p c then
          (match cs with
           | [] => [[c]]
           | c' :: _ =>
             if p c' then
               (match runsP p cs with
                | t :: ts => (c :: t) :: ts
                | [] => [[c]])
             else [c] :: runsP p cs)
        else runsP p cs := rfl

theorem runsP_cons_neg (p : Char → Bool) (c : Char) (cs : List Char) (h : p c = false) :
    runsP p (c :: cs) = runsP p cs := by
  rw [runsP_cons, h]
  rfl

theorem runsP_cons_pos (p : Char → Bool) (c : Char) (cs : List Char) (h : p c = true) :
    runsP p (c :: cs) = (c :: cs.takeWhile p) :: runsP p (cs.dropWhile p) := by
  induction cs generalizing c with
  | nil => simp [runsP_cons, h, runsP]
  | cons c2 cs2 ih =>
    rw [runsP_cons]
    cases h2 : p c2 with
    | true =>
      rw [ih c2 h2]
      simp [h, h2, List.takeWhile_cons, List.dropWhile_cons]
    | false =>
      simp [h, h2, List.takeWhile_cons, List.dropWhile_cons]

theorem runsP_allneg (p : Char → Bool) (l : List Char) (h : ∀ x ∈ l, p x = false) :
    runsP p l = [] := by
  induction l with
  | nil => rfl
  | cons c cs ih =>
    rw [runsP_cons_neg p c cs (h c (by simp))]
    exact ih (fun x hx => h x (List.mem_cons_of_mem c hx))

theorem runsP_allpos (p : Char → Bool) (l : List Char) (hne : l ≠ [])
    (h : ∀ x ∈ l, p x = true) : runsP p l = [l] := by
  cases l with
  | nil => exact absurd rfl hne
  | cons c cs =>
    rw [runsP_cons_pos p c cs (h c (by simp))]
    have ht : cs.takeWhile p = cs := List.takeWhile_eq_self_iff.mpr
      (fun x hx => h x (List.mem_cons_of_mem c hx))
    have hd : cs.dropWhile p = [] := List.dropWhile_eq_nil_iff.mpr
      (fun x hx => h x (List.mem_cons_of_mem c hx))
    rw [ht, hd]
    rfl

theorem dropWhile_head_neg (p : Char → Bool) (l : List Char) (d : Char) (ds : List Char)
    (h : l.dropWhile p = d :: ds) : p d = false := by
  induction l with
  | nil => simp at h
  | cons c cs ih =>
    rw [List.dropWhile_cons] at h
    by_cases hc : p c
    · rw [if_pos hc] at h
      exact ih h
    · rw [if_neg hc] at h
      cases h
      exact Bool.eq_false_iff.mpr hc

theorem takeWhile_append_sep (p : Char → Bool) (c : Char) (hc : p c = false)
    (xs b : List Char) : (xs ++ c :: b).takeWhile p = xs.takeWhile p := by
  induction xs with
  | nil => simp [List.takeWhile_cons, hc]
  | cons y ys ihy =>
    rw [List.cons_append, List.takeWhile_cons, List.takeWhile_cons]
    cases hy : p y with
    | true => rw [ihy]
    | false => rfl

theorem dropWhile_append_sep (p : Char → Bool) (c : Char) (hc : p c = false)
    (xs b : List Char) : (xs ++ c :: b).dropWhile p = xs.dropWhile p ++ c :: b := by
  induction xs with
  | nil => simp [List.dropWhile_cons, hc]
  | cons y ys ihy =>
    rw [List.cons_append, List.dropWhile_cons, List.dropWhile_cons]
    cases hy : p y with
    | true => simp only [if_true]; exact ihy
    | false => simp only [Bool.false_eq_true, if_false, List.cons_append]

theorem length_dropWhile_le (p : Char → Bool) (l : List Char) :
    (l.dropWhile p).length ≤ l.length := by
  induction l with
  | nil => simp
  | cons y ys ihy =>
    rw [List.dropWhile_cons]
    cases hy : p y with
    | true =>
      simp only [if_true]
      exact le_trans ihy (by simp)
    | false => simp

theorem runsP_append_sep (p : Char → Bool) (c : Char) (hc : p c = false) :
    ∀ (a b : List Char), runsP p (a ++ c :: b) = runsP p a ++ runsP p b := by
  have main : ∀ (n : Nat) (a b : List Char), a.length ≤ n →
      runsP p (a ++ c :: b) = runsP p a ++ runsP p b := by
    intro n
    induction n with
    | zero =>
      intro a b hlen
      have ha : a = [] := List.eq_nil_of_length_eq_zero (Nat.le_zero.mp hlen)
      subst ha
      rw [List.nil_append, runsP_cons_neg p c b hc]
      rfl
    | succ n ih =>
      intro a b hlen
      cases a with
      | nil =>
        rw [List.nil_append, runsP_cons_neg p c b hc]
        rfl
      | cons x xs =>
        rw [List.cons_append]
        cases hx : p x with
        | false =>
          rw [runsP_cons_neg p x _ hx, runsP_cons_neg p x xs hx]
          exact ih xs b (by simp at hlen; omega)
        | true =>
          rw [runsP_cons_pos p x _ hx, runsP_cons_pos p x xs hx]
          rw [takeWhile_append_sep p c hc, dropWhile_append_sep p c hc, List.cons_append]
          congr 1
          refine ih (xs.dropWhile p) b (le_trans (length_dropWhile_le p xs) ?_)
          simp at hlen
          omega
  intro a b
  exact main a.length a b (Nat.le_refl _)

theorem runsP_refine (p q : Char → Bool) (himp : ∀ ch, p ch = true → q ch = true) :
    ∀ l : List Char, runsP p l = ((runsP q l).map (runsP p)).flatten := by
  have main : ∀ (n : Nat) (l : List Char), l.length ≤ n →
      runsP p l = ((runsP q l).map (runsP p)).flatten := by
    intro n
    induction n with
    | zero =>
      intro l hlen
      have hl : l = [] := List.eq_nil_of_length_eq_zero (Nat.le_zero.mp hlen)
      subst hl
      rfl
    | succ n ih =>
      intro l hlen
      cases l with
      | nil => rfl
      | cons c cs =>
        cases hq : q c with
        | false =>
          have hp : p c = false := by
            cases hpc : p c with
            | false => rfl
            | true =>
              rw [himp c hpc] at hq
              exact absurd hq (by decide)
          rw [runsP_cons_neg p c cs hp, runsP_cons_neg q c cs hq]
          exact ih cs (by simp at hlen; omega)
        | true =>
          rw [runsP_cons_pos q c cs hq, List.map_cons, List.flatten_cons]
          rw [← ih (cs.dropWhile q)
            (le_trans (length_dropWhile_le q cs) (by simp at hlen; omega))]
          have hsplit : c :: cs = (c :: cs.takeWhile q) ++ cs.dropWhile q := by
            rw [List.cons_append, List.takeWhile_append_dropWhile]
          rw [hsplit]
          cases hd : cs.dropWhile q with
          | nil =>
            rw [List.append_nil]
            rw [show runsP p ([] : List Char) = [] from rfl, List.append_nil]
          | cons d ds =>
            have hqd : q d = false := dropWhile_head_neg q cs d ds hd
            have hpd : p d = false := by
              cases hpc : p d with
              | false => rfl
              | true =>
                rw [himp d hpc] at hqd
                exact absurd hqd (by decide)
            rw [runsP_append_sep p d hpd (c :: cs.takeWhile q) ds]
            rw [runsP_cons_neg p d ds hpd]
  intro l
  exact main l.length l (Nat.le_refl _)

theorem runsP_prefix_allneg (p : Char → Bool) (a b : List Char)
    (h : ∀ x ∈ a, p x = false) : runsP p (a ++ b) = runsP p b := by
  induction a with
  | nil => rfl
  | cons c cs ih =>
    rw [List.cons_append, runsP_cons_neg p c _ (h c (by simp))]
    exact ih (fun x hx => h x (List.mem_cons_of_mem c hx))

theorem runsP_suffix_allneg (p : Char → Bool) (a b : List Char)
    (h : ∀ x ∈ b, p x = false) : runsP p (a ++ b) = runsP p a := by
  cases b with
  | nil => rw [List.append_nil]
  | cons c cs =>
    rw [runsP_append_sep p c (h c (by simp)) a cs]
    rw [runsP_allneg p cs (fun x hx => h x (List.mem_cons_of_mem c hx))]
    rw [List.append_nil]

theorem tokensOf_append_sep (s t u : String) (hne : t.data ≠ [])
    (hsep : ∀ ch ∈ t.data, isTok ch = false) :
    tokensOf (s ++ t ++ u) = tokensOf s ++ tokensOf u := by
  unfold tokensOf
  rw [String.data_append, String.data_append]
  cases ht : t.data with
  | nil => exact absurd ht hne
  | cons c cs =>
    rw [ht] at hsep
    rw [List.append_assoc, List.cons_append]
    rw [runsP_append_sep isTok c (hsep c (by simp)) s.data (cs ++ u.data)]
    rw [runsP_prefix_allneg isTok cs u.data
      (fun x hx => hsep x (List.mem_cons_of_mem c hx))]

theorem tokensOf_append_dropright (s t : String)
    (hsep : ∀ ch ∈ t.data, isTok ch = false) :
    tokensOf (s ++ t) = tokensOf s := by
  unfold tokensOf
  rw [String.data_append]
  exact runsP_suffix_allneg isTok s.data t.data hsep

theorem tokensOf_dropleft (t u : String)
    (hsep : ∀ ch ∈ t.data, isTok ch = false) :
    tokensOf (t ++ u) = tokensOf u := by
  unfold tokensOf
  rw [String.data_append]
  exact runsP_prefix_allneg isTok t.data u.data hsep

theorem tokensOf_word (s : String) (hne : s.data ≠ [])
    (hall : ∀ ch ∈ s.data, isTok ch = true) : tokensOf s = [s.data] :=
  runsP_allpos isTok s.data hne hall

theorem wrapAux_flatten (width : Nat) :
    ∀ (ws : List String) (cur : List String) (len : Nat),
      (wrapAux width cur len ws).flatten = cur.reverse ++ ws := by
  intro ws
  induction ws with
  | nil =>
    intro cur len
    simp [wrapAux]
  | cons w ws ih =>
    intro cur len
    rw [wrapAux]
    by_cases h : len + 1 + w.length ≤ width
    · rw [if_pos h, ih]
      simp
    · rw [if_neg h]
      rw [List.flatten_cons, ih]
      simp

theorem wrapWords_flatten (width : Nat) (ws : List String) :
    (wrapWords width ws).flatten = ws := by
  cases ws with
  | nil => rfl
  | cons w ws =>
    rw [wrapWords, wrapAux_flatten]
    rfl

theorem strJoinSp_cons2 (w w2 : String) (ws : List String) :
    strJoinSp (w :: w2 :: ws) = w ++ " " ++ strJoinSp (w2 :: ws) := rfl

theorem tokensOf_strJoinSp (ws : List String) :
    tokensOf (strJoinSp ws) = (ws.map tokensOf).flatten := by
  induction ws with
  | nil => rfl
  | cons w ws ih =>
    cases ws with
    | nil => simp [strJoinSp]
    | cons w2 ws2 =>
      rw [strJoinSp_cons2, tokensOf_append_sep w " " _ (by decide) (by decide), ih]
      simp

theorem isTok_not_space (ch : Char) (h : isTok ch = true) : (!pyIsSpace ch) = true := by
  cases hs : pyIsSpace ch with
  | false => rfl
  | true =>
    exfalso
    simp [pyIsSpace] at hs
    rcases hs with ((rfl | rfl) | rfl) | rfl <;> exact absurd h (by decide)

theorem tokensOf_eq_words_tokens (s : String) :
    tokensOf s = ((wordsOfStr s).map tokensOf).flatten := by
  unfold tokensOf wordsOfStr
  rw [runsP_refine isTok (fun c => !pyIsSpace c) isTok_not_space s.data]
  rw [List.map_map]
  congr 1

theorem flatten_tokens_comm (f : String → List (List Char)) (L : List (List String)) :
    (L.map (fun ln => ((ln.map f).flatten))).flatten = ((L.flatten).map f).flatten := by
  induction L with
  | nil => rfl
  | cons ln L ih =>
    rw [List.map_cons, List.flatten_cons, List.flatten_cons, List.map_append,
      List.flatten_append, ih]

theorem tokensOf_pyWrap (text : String) (width : Nat) :
    ((pyWrap text width).map tokensOf).flatten = tokensOf text := by
  unfold pyWrap
  rw [List.map_map]
  rw [show (tokensOf ∘ strJoinSp) = fun ln => ((ln.map tokensOf).flatten) from
    funext fun ln => tokensOf_strJoinSp ln]
  rw [flatten_tokens_comm tokensOf (wrapWords width (wordsOfStr text))]
  rw [wrapWords_flatten]
  rw [← tokensOf_eq_words_tokens]

theorem tokensOf_lines (pre : String) (hpre : ∀ ch ∈ pre.data, isTok ch = false)
    (ls : List String) :
    tokensOf (strConcat (ls.map (fun t => pre ++ t ++ "\n")))
      = (ls.map tokensOf).flatten := by
  induction ls with
  | nil => rfl
  | cons l ls ih =>
    show tokensOf ((pre ++ l ++ "\n") ++ strConcat (ls.map (fun t => pre ++ t ++ "\n"))) = _
    rw [tokensOf_append_sep (pre ++ l) "\n" _ (by decide) (by decide)]
    rw [tokensOf_dropleft pre l hpre, ih]
    rw [List.map_cons, List.flatten_cons]

theorem tokensOf_indentedWrap (text : String) (width : Nat) :
    tokensOf (indentedWrap text width) = tokensOf text := by
  unfold indentedWrap
  rw [tokensOf_lines "  " (by decide) (pyWrap text width), tokensOf_pyWrap]

theorem tokensOf_dateLines (text : String) (width : Nat) :
    tokensOf (dateLines (pyWrap text width)) = tokensOf text := by
  rw [← tokensOf_pyWrap text width]
  cases hw : pyWrap text width with
  | nil => rfl
  | cons l ls =>
    rw [dateLines]
    show tokensOf ((l ++ "\n") ++ strConcat (ls.map (fun t => "        " ++ t ++ "\n"))) = _
    rw [tokensOf_append_sep l "\n" _ (by decide) (by decide)]
    rw [tokensOf_lines "        " (by decide) ls]
    rw [List.map_cons, List.flatten_cons]

theorem tokensOf_append_sep_right (s t u : String) (hne : t.data ≠ [])
    (hsep : ∀ ch ∈ t.data, isTok ch = false) :
    tokensOf (s ++ (t ++ u)) = tokensOf s ++ tokensOf u := by
  rw [← String.append_assoc]
  exact tokensOf_append_sep s t u hne hsep

theorem tokensOf_empty_right (s : String) : tokensOf (s ++ "") = tokensOf s := by
  unfold tokensOf
  rw [String.data_append, show "".data = ([] : List Char) from rfl, List.append_nil]

theorem tokensOf_empty_left (u : String) : tokensOf ("" ++ u) = tokensOf u := by
  unfold tokensOf
  rw [String.data_append, show "".data = ([] : List Char) from rfl, List.nil_append]

theorem pad_allsep (n : Nat) :
    ∀ ch ∈ (String.mk (List.replicate n ' ')).data, isTok ch = false := by
  intro ch hch
  have h : ch = ' ' := List.eq_of_mem_replicate hch
  subst h
  decide

theorem line_sep_true_eq (w : Nat) (sep : Char) :
    line_sep w sep true = "\n" ++ String.mk (List.replicate w sep) ++ "\n" := rfl

theorem line_sep_false_eq (w : Nat) (sep : Char) :
    line_sep w sep false = String.mk (List.replicate w sep) := rfl

theorem mem_line_sep (w : Nat) (sep : Char) (nl : Bool) (ch : Char)
    (hch : ch ∈ (line_sep w sep nl).data) : ch = sep ∨ ch = '\n' := by
  have hnl : "\n".data = ['\n'] := rfl
  cases nl with
  | true =>
    rw [line_sep_true_eq, String.data_append, String.data_append] at hch
    rcases List.mem_append.mp hch with h1 | h2
    · rcases List.mem_append.mp h1 with ha | hb
      · right
        rw [hnl] at ha
        simpa using ha
      · left
        exact List.eq_of_mem_replicate hb
    · right
      rw [hnl] at h2
      simpa using h2
  | false =>
    rw [line_sep_false_eq] at hch
    left
    exact List.eq_of_mem_replicate hch

theorem line_sep_allsep (w : Nat) (sep : Char) (nl : Bool) (hsep : isTok sep = false) :
    ∀ ch ∈ (line_sep w sep nl).data, isTok ch = false := by
  intro ch hch
  rcases mem_line_sep w sep nl ch hch with rfl | rfl
  · exact hsep
  · decide

theorem tokensOf_rowLine_append (rw : Nat) (n v u : String) :
    tokensOf (rowLine rw n v ++ u) = (tokensOf n ++ tokensOf v) ++ tokensOf u := by
  unfold rowLine
  rw [tokensOf_append_sep (pyRightAlign n rw ++ " : " ++ v) "\n" u (by decide) (by decide)]
  rw [tokensOf_append_sep (pyRightAlign n rw) " : " v (by decide) (by decide)]
  unfold pyRightAlign
  rw [tokensOf_dropleft (String.mk (List.replicate (rw - n.length) ' ')) n
    (pad_allsep (rw - n.length))]

theorem tokensOf_rows_append (rw : Nat) (prs : List (String × String)) (u : String) :
    tokensOf (strConcat (prs.map (fun p => rowLine rw p.1 p.2)) ++ u)
      = (prs.map (fun p => tokensOf p.1 ++ tokensOf p.2)).flatten ++ tokensOf u := by
  induction prs with
  | nil => exact tokensOf_empty_left u
  | cons q t ih =>
    show tokensOf ((rowLine rw q.1 q.2
      ++ strConcat (t.map (fun p => rowLine rw p.1 p.2))) ++ u) = _
    rw [String.append_assoc, tokensOf_rowLine_append, ih]
    simp [List.append_assoc]

theorem tokensOf_lines_append (pre : String) (hpre : ∀ ch ∈ pre.data, isTok ch = false)
    (ls : List String) (u : String) :
    tokensOf (strConcat (ls.map (fun t => pre ++ t ++ "\n")) ++ u)
      = (ls.map tokensOf).flatten ++ tokensOf u := by
  induction ls with
  | nil => exact tokensOf_empty_left u
  | cons l ls ih =>
    show tokensOf (((pre ++ l ++ "\n")
      ++ strConcat (ls.map (fun t => pre ++ t ++ "\n"))) ++ u) = _
    rw [String.append_assoc]
    rw [tokensOf_append_sep (pre ++ l) "\n"
      (strConcat (ls.map (fun t => pre ++ t ++ "\n")) ++ u) (by decide) (by decide)]
    rw [tokensOf_dropleft pre l hpre, ih]
    simp [List.append_assoc]

theorem tokensOf_indentedWrap_append (text : String) (width : Nat) (u : String) :
    tokensOf (indentedWrap text width ++ u) = tokensOf text ++ tokensOf u := by
  unfold indentedWrap
  rw [tokensOf_lines_append "  " (by decide) (pyWrap text width) u, tokensOf_pyWrap]

theorem tokensOf_dateLines_append (text : String) (width : Nat) (u : String) :
    tokensOf (dateLines (pyWrap text width) ++ u) = tokensOf text ++ tokensOf u := by
  rw [← tokensOf_pyWrap text width]
  cases hw : pyWrap text width with
  | nil =>
    rw [dateLines]
    rw [tokensOf_empty_left u]
    simp
  | cons l ls =>
    rw [dateLines]
    show tokensOf (((l ++ "\n")
      ++ strConcat (ls.map (fun t => "        " ++ t ++ "\n"))) ++ u) = _
    rw [String.append_assoc, String.append_assoc]
    rw [tokensOf_append_sep_right l "\n"
      (strConcat (ls.map (fun t => "        " ++ t ++ "\n")) ++ u) (by decide) (by decide)]
    rw [tokensOf_lines_append "        " (by decide) ls u]
    simp [List.append_assoc]

theorem tokensOf_dateLabel (x : String) :
    tokensOf ("  Date: " ++ x) = "Date".data :: tokensOf x := by
  have h : "  Date: " ++ x = "  " ++ ("Date" ++ (": " ++ x)) := by
    rw [← String.append_assoc, ← String.append_assoc]
    congr 1
  rw [h]
  rw [tokensOf_dropleft "  " _ (by decide)]
  rw [tokensOf_append_sep_right "Date" ": " x (by decide) (by decide)]
  rw [tokensOf_word "Date" (by decide) (by decide)]
  rfl

theorem tokensOf_rows (rw : Nat) (prs : List (String × String)) :
    tokensOf (strConcat (prs.map (fun p => rowLine rw p.1 p.2)))
      = (prs.map (fun p => tokensOf p.1 ++ tokensOf p.2)).flatten := by
  rw [← tokensOf_empty_right (strConcat (prs.map (fun p => rowLine rw p.1 p.2)))]
  rw [tokensOf_rows_append]
  rw [show tokensOf "" = [] from rfl, List.append_nil]

theorem packagesView_nil (st : ReportState) (h : st.packages.isEmpty = true) :
    packagesView st = [] := by
  have hnil : st.packages = [] := by
    cases hp : st.packages with
    | nil => rfl
    | cons a t => rw [hp] at h; simp [List.isEmpty] at h
  by_cases hs : st.sort <;> simp [packagesView, hnil, hs, insSort]

theorem tokens_repr_head (st : ReportState) :
    tokensOf (line_sep st.text_width '-' true
        ++ ("  Date: " ++ dateLines (pyWrap st.env.date (st.text_width - 8))) ++ "\n"
        ++ strConcat ((platformPairs st).map (fun p => rowLine (row_width st) p.1 p.2))
        ++ "\n" ++ indentedWrap ("Python " ++ st.env.sys_version) (st.text_width - 4))
      = "Date".data :: (tokensOf st.env.date ++ (pairsTokens st
          ++ tokensOf ("Python " ++ st.env.sys_version))) := by
  rw [tokensOf_append_sep _ "\n" _ (by decide) (by decide)]
  rw [tokensOf_indentedWrap]
  rw [tokensOf_append_sep _ "\n" _ (by decide) (by decide)]
  rw [tokensOf_rows]
  rw [tokensOf_dropleft (line_sep st.text_width '-' true) _
    (line_sep_allsep st.text_width '-' true (by decide))]
  rw [tokensOf_dateLabel, tokensOf_dateLines]
  simp only [pairsTokens]
  simp [List.append_assoc]

theorem tokens_report_repr (st : ReportState) (hso : st.show_other = false) :
    tokensOf (report_repr st)
      = "Date".data
          :: (tokensOf st.env.date
              ++ (pairsTokens st
                  ++ (tokensOf ("Python " ++ st.env.sys_version)
                      ++ (pkgTokens st ++ mklTokens st)))) := by
  simp only [report_repr, hso, Bool.false_eq_true, if_false]
  rw [tokensOf_append_dropright _ _ (line_sep_allsep st.text_width '-' false (by decide))]
  cases hmkl : mklTruthy st with
  | none =>
    simp only [mklTokens, hmkl]
    rw [tokensOf_empty_right]
    cases hpk : st.packages.isEmpty with
    | true =>
      simp only [if_true]
      rw [packagesView_nil st hpk]
      rw [show strConcat (List.map (fun p => rowLine (row_width st) p.1 p.2)
        ([] : List (String × String))) = "" from rfl]
      rw [tokensOf_empty_right, tokensOf_empty_right]
      rw [tokens_repr_head]
      simp only [pkgTokens, packagesView_nil st hpk, List.map_nil, List.flatten_nil]
      simp [List.append_assoc]
    | false =>
      simp only [Bool.false_eq_true, if_false]
      rw [tokensOf_append_sep _ "\n" _ (by decide) (by decide)]
      rw [tokensOf_rows]
      rw [tokens_repr_head]
      simp only [pkgTokens]
      simp [List.append_assoc]
  | some s =>
    simp only [mklTokens, hmkl]
    rw [tokensOf_append_sep_right _ "\n" _ (by decide) (by decide)]
    rw [tokensOf_indentedWrap]
    cases hpk : st.packages.isEmpty with
    | true =>
      simp only [if_true]
      rw [packagesView_nil st hpk]
      rw [show strConcat (List.map (fun p => rowLine (row_width st) p.1 p.2)
        ([] : List (String × String))) = "" from rfl]
      rw [tokensOf_empty_right, tokensOf_empty_right]
      rw [tokens_repr_head]
      simp only [pkgTokens, packagesView_nil st hpk, List.map_nil, List.flatten_nil]
      simp [List.append_assoc]
    | false =>
      simp only [Bool.false_eq_true, if_false]
      rw [tokensOf_append_sep _ "\n" _ (by decide) (by decide)]
      rw [tokensOf_rows]
      rw [tokens_repr_head]
      simp only [pkgTokens]
      simp [List.append_assoc]

theorem stripAux_false_text (l : List Char) (h : ∀ ch ∈ l, ch ≠ '<') :
    ∀ r, stripTagsAux false (l ++ r) = l ++ stripTagsAux false r := by
  induction l with
  | nil => intro r; rfl
  | cons c cs ih =>
    intro r
    rw [List.cons_append]
    have hc : (c == '<') = false := beq_eq_false_iff_ne.mpr (h c (by simp))
    show (if c == '<' then stripTagsAux true (cs ++ r)
      else c :: stripTagsAux false (cs ++ r)) = _
    rw [hc]
    simp only [Bool.false_eq_true, if_false, List.cons_append]
    rw [ih (fun ch hch => h ch (List.mem_cons_of_mem c hch)) r]

theorem stripAux_true_pass (l : List Char) (h : ∀ ch ∈ l, ch ≠ '>') :
    ∀ r, stripTagsAux true (l ++ r) = stripTagsAux true r := by
  induction l with
  | nil => intro r; rfl
  | cons c cs ih =>
    intro r
    rw [List.cons_append]
    have hc : (c == '>') = false := beq_eq_false_iff_ne.mpr (h c (by simp))
    show (if c == '>' then stripTagsAux false (cs ++ r)
      else stripTagsAux true (cs ++ r)) = _
    rw [hc]
    simp only [Bool.false_eq_true, if_false]
    exact ih (fun ch hch => h ch (List.mem_cons_of_mem c hch)) r

theorem stripAux_false_lt (l : List Char) :
    stripTagsAux false ('<' :: l) = stripTagsAux true l := rfl

theorem stripAux_true_gt (l : List Char) :
    stripTagsAux true ('>' :: l) = stripTagsAux false l := rfl

theorem digitChar_lt_ten : ∀ m : Nat, m < 10 → (Nat.digitChar m).isDigit = true := by
  decide

theorem toDigitsCore_digits (fuel : Nat) :
    ∀ (n : Nat) (acc : List Char), (∀ c ∈ acc, c.isDigit = true) →
      ∀ c ∈ Nat.toDigitsCore 10 fuel n acc, c.isDigit = true := by
  induction fuel with
  | zero =>
    intro n acc hacc c hc
    exact hacc c hc
  | succ fuel ih =>
    intro n acc hacc c hc
    rw [Nat.toDigitsCore] at hc
    by_cases hz : n / 10 = 0
    · rw [if_pos hz] at hc
      rcases List.mem_cons.mp hc with rfl | hmem
      · exact digitChar_lt_ten _ (Nat.mod_lt n (by omega))
      · exact hacc c hmem
    · rw [if_neg hz] at hc
      refine ih (n / 10) (Nat.digitChar (n % 10) :: acc) ?_ c hc
      intro d hd
      rcases List.mem_cons.mp hd with rfl | hmem
      · exact digitChar_lt_ten _ (Nat.mod_lt n (by omega))
      · exact hacc d hmem

theorem natRepr_digits (n : Nat) : ∀ c ∈ (Nat.repr n).data, c.isDigit = true := by
  intro c hc
  have h : (Nat.repr n).data = Nat.toDigits 10 n := rfl
  rw [h] at hc
  exact toDigitsCore_digits (n + 1) n [] (by intro d hd; exact absurd hd (List.not_mem_nil d)) c hc

theorem natRepr_no_gt (n : Nat) : ∀ c ∈ (Nat.repr n).data, c ≠ '>' := by
  intro c hc heq
  subst heq
  exact absurd (natRepr_digits n '>' hc) (by decide)

theorem natRepr_no_lt (n : Nat) : ∀ c ∈ (Nat.repr n).data, c ≠ '<' := by
  intro c hc heq
  subst heq
  exact absurd (natRepr_digits n '<' hc) (by decide)

theorem strip_tdAlign (x : List Char) :
    stripTagsAux false (("    <td style=\x27text-align: ").data ++ x)
      = ' ' :: ' ' :: ' ' :: ' ' :: stripTagsAux true x := rfl

theorem strip_tdLeft (x : List Char) :
    stripTagsAux false (("    <td style=\x27text-align: left; " ++ border ++ ">").data ++ x)
      = ' ' :: ' ' :: ' ' :: ' ' :: stripTagsAux false x := rfl

theorem strip_tdClose (x : List Char) :
    stripTagsAux false (("</td>\n").data ++ x) = '\n' :: stripTagsAux false x := rfl

theorem strip_trOpen (x : List Char) :
    stripTagsAux false (("  <tr>\n").data ++ x) = ' ' :: ' ' :: '\n' :: stripTagsAux false x := rfl

theorem strip_trClose (x : List Char) :
    stripTagsAux false (("  </tr>\n").data ++ x) = ' ' :: ' ' :: '\n' :: stripTagsAux false x := rfl

theorem strip_gtQuote (x : List Char) :
    stripTagsAux true (("\x27>").data ++ x) = stripTagsAux false x := rfl

theorem strip_gtQuoteNl (x : List Char) :
    stripTagsAux true (("\x27>\n").data ++ x) = '\n' :: stripTagsAux false x := rfl

theorem strip_gt (x : List Char) :
    stripTagsAux true ((">").data ++ x) = stripTagsAux false x := rfl

theorem strip_tableOpen (x : List Char) :
    stripTagsAux false (("<table style=\x27border: 1.5px solid;").data ++ x)
      = stripTagsAux true x := rfl

theorem strip_brkTokens (b : Bool) (x : List Char) :
    runsP isTok (stripTagsAux false
        ((if b then ("  </tr>\n" ++ "  <tr>\n" : String) else "").data ++ x))
      = runsP isTok (stripTagsAux false x) := by
  cases b with
  | true =>
    rw [if_pos rfl]
    rw [show stripTagsAux false ((("  </tr>\n" ++ "  <tr>\n" : String)).data ++ x)
      = ' ' :: ' ' :: '\n' :: ' ' :: ' ' :: '\n' :: stripTagsAux false x from rfl]
    rw [runsP_cons_neg isTok ' ' _ (by decide), runsP_cons_neg isTok ' ' _ (by decide),
      runsP_cons_neg isTok '\n' _ (by decide), runsP_cons_neg isTok ' ' _ (by decide),
      runsP_cons_neg isTok ' ' _ (by decide), runsP_cons_neg isTok '\n' _ (by decide)]
  | false =>
    rw [if_neg (by simp)]
    rw [show ("" : String).data = ([] : List Char) from rfl, List.nil_append]

theorem strip_alignPass (b : Bool) (x : List Char) :
    stripTagsAux true ((if b then ("left" : String) else "right").data ++ x)
      = stripTagsAux true x := by
  cases b with
  | true => rw [if_pos rfl]; rfl
  | false => rw [if_neg (by simp)]; rfl

theorem strip_calignPass (b : Bool) (x : List Char) :
    stripTagsAux true
        ((if b then ("text-align: left; " : String) else "text-align: center; ").data ++ x)
      = stripTagsAux true x := by
  cases b with
  | true => rw [if_pos rfl]; rfl
  | false => rw [if_neg (by simp)]; rfl

theorem strip_boldPass (b : Bool) (x : List Char) :
    stripTagsAux true
        ((if b then ("font-weight: bold; font-size: 1.2em; " : String) else "").data ++ x)
      = stripTagsAux true x := by
  cases b with
  | true => rw [if_pos rfl]; rfl
  | false => rw [if_neg (by simp)]; rfl

theorem strip_maxwPass (b : Bool) (n : Nat) (x : List Char) :
    stripTagsAux true
        ((if b then (" max-width: " ++ Nat.repr n ++ "px;" : String) else "").data ++ x)
      = stripTagsAux true x := by
  cases b with
  | true =>
    rw [if_pos rfl, String.data_append, String.data_append, List.append_assoc,
      List.append_assoc]
    rw [stripAux_true_pass (" max-width: ").data (by decide)]
    rw [stripAux_true_pass (Nat.repr n).data (natRepr_no_gt n)]
    rw [stripAux_true_pass ("px;").data (by decide)]
  | false =>
    rw [if_neg (by simp)]
    rw [show ("" : String).data = ([] : List Char) from rfl, List.nil_append]

theorem strip_td5Open (x : List Char) :
    stripTagsAux false (("     <td style=\x27").data ++ x)
      = ' ' :: ' ' :: ' ' :: ' ' :: ' ' :: stripTagsAux true x := rfl

theorem strip_tokens_colspanCell (txt : String) (ncol nrow : Nat) (r : List Char)
    (htxt : ∀ ch ∈ txt.data, ch ≠ '<') :
    runsP isTok (stripTagsAux false ((colspanCell txt ncol nrow).data ++ r))
      = tokensOf txt ++ runsP isTok (stripTagsAux false r) := by
  unfold colspanCell
  simp only [String.data_append, List.append_assoc]
  rw [strip_trOpen, strip_td5Open, strip_calignPass, strip_boldPass]
  rw [stripAux_true_pass border.data (by decide)]
  rw [stripAux_true_pass (" colspan=\x27").data (by decide)]
  rw [stripAux_true_pass (Nat.repr (2 * ncol)).data (natRepr_no_gt (2 * ncol))]
  rw [strip_gtQuote]
  rw [stripAux_false_text txt.data htxt]
  rw [strip_tdClose, strip_trClose]
  rw [runsP_cons_neg isTok ' ' _ (by decide), runsP_cons_neg isTok ' ' _ (by decide),
    runsP_cons_neg isTok '\n' _ (by decide), runsP_cons_neg isTok ' ' _ (by decide),
    runsP_cons_neg isTok ' ' _ (by decide), runsP_cons_neg isTok ' ' _ (by decide),
    runsP_cons_neg isTok ' ' _ (by decide), runsP_cons_neg isTok ' ' _ (by decide)]
  rw [runsP_append_sep isTok '\n' (by decide) txt.data]
  rw [runsP_cons_neg isTok ' ' _ (by decide), runsP_cons_neg isTok ' ' _ (by decide),
    runsP_cons_neg isTok '\n' _ (by decide)]
  rfl

theorem strip_tdLeftA (x : List Char) :
    stripTagsAux false (("    <td style=\x27text-align: left; ").data ++ x)
      = ' ' :: ' ' :: ' ' :: ' ' :: stripTagsAux true x := rfl

theorem strip_tokens_colsCell (version name : String) (ncol i : Nat) (r : List Char)
    (hn : ∀ ch ∈ name.data, ch ≠ '<') (hv : ∀ ch ∈ version.data, ch ≠ '<') :
    runsP isTok (stripTagsAux false ((colsCell version name ncol i).data ++ r))
      = (tokensOf name ++ tokensOf version) ++ runsP isTok (stripTagsAux false r) := by
  unfold colsCell
  simp only [String.data_append, List.append_assoc]
  rw [strip_brkTokens]
  rw [strip_tdAlign, strip_alignPass]
  rw [stripAux_true_pass (";").data (by decide)]
  rw [stripAux_true_pass (" ").data (by decide)]
  rw [stripAux_true_pass border.data (by decide)]
  rw [strip_gt]
  rw [stripAux_false_text name.data hn]
  rw [strip_tdClose, strip_tdLeftA]
  rw [stripAux_true_pass border.data (by decide)]
  rw [strip_gt]
  rw [stripAux_false_text version.data hv]
  rw [strip_tdClose]
  rw [runsP_cons_neg isTok ' ' _ (by decide), runsP_cons_neg isTok ' ' _ (by decide),
    runsP_cons_neg isTok ' ' _ (by decide), runsP_cons_neg isTok ' ' _ (by decide)]
  rw [runsP_append_sep isTok '\n' (by decide) name.data]
  rw [runsP_cons_neg isTok ' ' _ (by decide), runsP_cons_neg isTok ' ' _ (by decide),
    runsP_cons_neg isTok ' ' _ (by decide), runsP_cons_neg isTok ' ' _ (by decide)]
  rw [runsP_append_sep isTok '\n' (by decide) version.data]
  simp only [tokensOf, List.append_assoc]

theorem colsFold_cons (q : String × String) (t : List (String × String)) (ncol : Nat)
    (acc : String) (i : Nat) :
    colsFold (q :: t) ncol (acc, i)
      = colsFold t ncol (acc ++ colsCell q.2 q.1 ncol i, i + 1) := rfl

theorem colsFold_data (ncol : Nat) (prs : List (String × String)) :
    ∀ (acc : String) (i : Nat),
      (colsFold prs ncol (acc, i)).1.data
        = acc.data ++ (colsFold prs ncol ("", i)).1.data := by
  induction prs with
  | nil =>
    intro acc i
    show acc.data = acc.data ++ ("" : String).data
    rw [show ("" : String).data = ([] : List Char) from rfl, List.append_nil]
  | cons q t ih =>
    intro acc i
    rw [colsFold_cons, colsFold_cons, ih (acc ++ colsCell q.2 q.1 ncol i) (i + 1),
      ih ("" ++ colsCell q.2 q.1 ncol i) (i + 1)]
    rw [String.data_append, String.data_append]
    rw [show ("" : String).data = ([] : List Char) from rfl, List.nil_append,
      List.append_assoc]

theorem strip_tokens_cells (ncol : Nat) (prs : List (String × String)) :
    ∀ (i : Nat) (r : List Char),
      (∀ p ∈ prs, (∀ ch ∈ p.1.data, ch ≠ '<') ∧ (∀ ch ∈ p.2.data, ch ≠ '<')) →
      runsP isTok (stripTagsAux false ((colsFold prs ncol ("", i)).1.data ++ r))
        = (prs.map (fun p => tokensOf p.1 ++ tokensOf p.2)).flatten
            ++ runsP isTok (stripTagsAux false r) := by
  induction prs with
  | nil =>
    intro i r hcl
    show runsP isTok (stripTagsAux false (("" : String).data ++ r)) = _
    rw [show ("" : String).data = ([] : List Char) from rfl, List.nil_append,
      List.map_nil, List.flatten_nil, List.nil_append]
  | cons q t ih =>
    intro i r hcl
    rw [colsFold_cons, colsFold_data ncol t ("" ++ colsCell q.2 q.1 ncol i) (i + 1)]
    rw [String.data_append,
      show ("" : String).data = ([] : List Char) from rfl, List.nil_append,
      List.append_assoc]
    rw [strip_tokens_colsCell q.2 q.1 ncol i _ (hcl q (by simp)).1 (hcl q (by simp)).2]
    rw [ih (i + 1) r (fun p hp => hcl p (List.mem_cons_of_mem q hp))]
    simp [List.append_assoc]

theorem strip_padPair (x : List Char) :
    stripTagsAux false
        (("    <td style= " ++ border ++ "></td>\n"
          ++ "    <td style= " ++ border ++ "></td>\n").data ++ x)
      = ' ' :: ' ' :: ' ' :: ' ' :: '\n' :: ' ' :: ' ' :: ' ' :: ' ' :: '\n'
          :: stripTagsAux false x := rfl

theorem strip_tokens_padCells (ncol i : Nat) (r : List Char) :
    runsP isTok (stripTagsAux false ((padCells ncol i).data ++ r))
      = runsP isTok (stripTagsAux false r) := by
  unfold padCells
  generalize padCount ncol i = k
  induction k with
  | zero =>
    show runsP isTok (stripTagsAux false (("" : String).data ++ r)) = _
    rw [show ("" : String).data = ([] : List Char) from rfl, List.nil_append]
  | succ k ih =>
    rw [List.replicate_succ]
    show runsP isTok (stripTagsAux false
      ((("    <td style= " ++ border ++ "></td>\n"
          ++ "    <td style= " ++ border ++ "></td>\n")
        ++ strConcat (List.replicate k _)).data ++ r)) = _
    rw [String.data_append, List.append_assoc, strip_padPair]
    rw [runsP_cons_neg isTok ' ' _ (by decide), runsP_cons_neg isTok ' ' _ (by decide),
      runsP_cons_neg isTok ' ' _ (by decide), runsP_cons_neg isTok ' ' _ (by decide),
      runsP_cons_neg isTok '\n' _ (by decide), runsP_cons_neg isTok ' ' _ (by decide),
      runsP_cons_neg isTok ' ' _ (by decide), runsP_cons_neg isTok ' ' _ (by decide),
      runsP_cons_neg isTok ' ' _ (by decide), runsP_cons_neg isTok '\n' _ (by decide)]
    exact ih

theorem noLt_prop (s : String) (h : noLt s = true) : ∀ ch ∈ s.data, ch ≠ '<' := by
  intro ch hch
  have hb := List.all_eq_true.mp h ch hch
  simpa using hb

theorem cleanState_parts (st : ReportState) (h : cleanState st = true) :
    (∀ k ∈ platformKeys, ∀ v, (to_dict st).lookup k = some v → noLt v = true)
    ∧ noLt st.env.date = true
    ∧ noLt st.env.sys_version = true
    ∧ (∀ m ∈ st.extra_meta, noLt m.1 = true ∧ noLt m.2 = true)
    ∧ (∀ p ∈ packagesView st, noLt p.1 = true ∧ noLt p.2 = true)
    ∧ (∀ s, mklTruthy st = some s → noLt s = true) := by
  unfold cleanState at h
  rw [Bool.and_eq_true, Bool.and_eq_true, Bool.and_eq_true, Bool.and_eq_true,
    Bool.and_eq_true] at h
  obtain ⟨⟨⟨⟨⟨hA, hB⟩, hC⟩, hD⟩, hE⟩, hF⟩ := h
  refine ⟨?_, hB, hC, ?_, ?_, ?_⟩
  · intro k hk v hv
    have := List.all_eq_true.mp hA k hk
    rw [hv] at this
    exact this
  · intro m hm
    have hmm := List.all_eq_true.mp hD m hm
    rw [Bool.and_eq_true] at hmm
    exact hmm
  · intro p hp
    have hpp := List.all_eq_true.mp hE p hp
    rw [Bool.and_eq_true] at hpp
    exact hpp
  · intro s hs
    rw [hs] at hF
    exact hF

theorem platformPairs_clean (st : ReportState) (h : cleanState st = true) :
    ∀ p ∈ platformPairs st,
      (∀ ch ∈ p.1.data, ch ≠ '<') ∧ (∀ ch ∈ p.2.data, ch ≠ '<') := by
  obtain ⟨hA, _, _, hextra, _, _⟩ := cleanState_parts st h
  intro p hp
  rw [platformPairs] at hp
  rcases List.mem_append.mp hp with h1 | h2
  · rcases List.mem_filterMap.mp h1 with ⟨k, hk, hf⟩
    cases hl : (to_dict st).lookup k with
    | none =>
      rw [hl] at hf
      exact absurd hf (by exact Option.noConfusion)
    | some v =>
      rw [hl] at hf
      have hf2 : (k, v) = p := Option.some.inj hf
      have hkeys : ∀ k2 ∈ platformKeys, ∀ ch ∈ k2.data, ch ≠ '<' := by decide
      rw [← hf2]
      exact ⟨hkeys k hk, noLt_prop v (hA k hk v hl)⟩
  · have := hextra p h2
    exact ⟨noLt_prop _ this.1, noLt_prop _ this.2⟩

theorem tokens_report_repr_html (st : ReportState) (hcs : cleanState st = true) :
    tokensOf (String.mk (stripT (report_repr_html st).data))
      = tokensOf st.env.date
          ++ (pairsTokens st
              ++ (tokensOf ("Python " ++ st.env.sys_version)
                  ++ (pkgTokens st ++ mklTokens st))) := by
  obtain ⟨hA, hdate, hsys, hextra, hpkg, hmkl⟩ := cleanState_parts st hcs
  have hpairs := platformPairs_clean st hcs
  have hpkgs : ∀ p ∈ packagesView st,
      (∀ ch ∈ p.1.data, ch ≠ '<') ∧ (∀ ch ∈ p.2.data, ch ≠ '<') :=
    fun p hp => ⟨noLt_prop _ (hpkg p hp).1, noLt_prop _ (hpkg p hp).2⟩
  have hlitPy : ∀ ch ∈ ("Python ").data, ch ≠ '<' := by decide
  have hpy : ∀ ch ∈ ("Python " ++ st.env.sys_version).data, ch ≠ '<' := by
    intro ch hch
    rw [String.data_append] at hch
    rcases List.mem_append.mp hch with h1 | h2
    · exact hlitPy ch h1
    · exact noLt_prop _ hsys ch h2
  show runsP isTok (stripTagsAux false (report_repr_html st).data) = _
  simp only [report_repr_html]
  simp only [String.data_append, List.append_assoc]
  rw [colsFold_data st.ncol (packagesView st)]
  simp only [String.data_append, List.append_assoc]
  rw [colsFold_data st.ncol (platformPairs st)]
  simp only [String.data_append, List.append_assoc]
  rw [strip_tableOpen, strip_maxwPass, strip_gtQuoteNl]
  rw [runsP_cons_neg isTok '\n' _ (by decide)]
  rw [strip_tokens_colspanCell st.env.date st.ncol 0 _ (noLt_prop _ hdate)]
  rw [strip_trOpen]
  rw [runsP_cons_neg isTok ' ' _ (by decide), runsP_cons_neg isTok ' ' _ (by decide),
    runsP_cons_neg isTok '\n' _ (by decide)]
  rw [strip_tokens_cells st.ncol (platformPairs st) 0 _ hpairs]
  rw [strip_trClose]
  rw [runsP_cons_neg isTok ' ' _ (by decide), runsP_cons_neg isTok ' ' _ (by decide),
    runsP_cons_neg isTok '\n' _ (by decide)]
  rw [strip_tokens_colspanCell ("Python " ++ st.env.sys_version) st.ncol 1 _ hpy]
  rw [strip_trOpen]
  rw [runsP_cons_neg isTok ' ' _ (by decide), runsP_cons_neg isTok ' ' _ (by decide),
    runsP_cons_neg isTok '\n' _ (by decide)]
  rw [strip_tokens_cells st.ncol (packagesView st) 0 _ hpkgs]
  rw [strip_tokens_padCells]
  rw [strip_trClose]
  rw [runsP_cons_neg isTok ' ' _ (by decide), runsP_cons_neg isTok ' ' _ (by decide),
    runsP_cons_neg isTok '\n' _ (by decide)]
  cases hm : mklTruthy st with
  | none =>
    simp only [mklTokens, hm]
    simp only [List.nil_append]
    rw [show stripTagsAux false (['<', '/', 't', 'a', 'b', 'l', 'e', '>'] : List Char)
      = [] from rfl]
    rw [show runsP isTok ([] : List Char) = [] from rfl]
    simp [pairsTokens, pkgTokens, List.append_assoc]
  | some s =>
    simp only [mklTokens, hm]
    rw [strip_tokens_colspanCell s st.ncol 2 _ (noLt_prop _ (hmkl s hm))]
    rw [show stripTagsAux false (['<', '/', 't', 'a', 'b', 'l', 'e', '>'] : List Char)
      = [] from rfl]
    rw [show runsP isTok ([] : List Char) = [] from rfl]
    simp [pairsTokens, pkgTokens, List.append_assoc]


/-- C9 (amended): for every report whose rendered fields contain no `<` and
whose other-installed-packages section is disabled, stripping markup from the
HTML rendering and tokenizing reproduces exactly the plain-text rendering's
token sequence minus its leading `Date` label (the fixed positional offset:
`__repr__` prints a `Date:` row, `_repr_html_` prints the bare date in a
single spanning cell).  The claim as frozen, quantified over every report, is
refuted by `plain_html_token_equiv_cex`: with `show_other` set the plain text
lists the other installed packages while the HTML table omits that section
(report.py lines 404-409 have no counterpart in `_repr_html_`), and a `<` in
any rendered value makes the stripped HTML drop text. -/
theorem plain_html_token_equiv (st : ReportState)
    (h1 : st.show_other = false) (h2 : cleanState st = true) :
    tokensOf (report_repr st)
      = "Date".data :: tokensOf (String.mk (stripT (report_repr_html st).data)) := by
  rw [tokens_report_repr st h1, tokens_report_repr_html st h2]

theorem plain_html_token_equiv_witness :
    stWit9.show_other = false ∧ cleanState stWit9 = true ∧
    tokensOf (report_repr stWit9)
      = "Date".data :: tokensOf (String.mk (stripT (report_repr_html stWit9).data)) :=
  ⟨rfl, by decide, plain_html_token_equiv stWit9 rfl (by decide)⟩

/-- C9 counterexample to the claim as frozen: enabling the other-packages
section gives the plain rendering tokens the HTML omits, and a `<` inside a
rendered value makes the stripped HTML lose text even with that section
disabled. -/
theorem plain_html_token_equiv_cex :
    stCex9.show_other = true ∧
    tokensOf (report_repr stCex9)
      ≠ "Date".data :: tokensOf (String.mk (stripT (report_repr_html stCex9).data)) ∧
    stCex9b.show_other = false ∧
    tokensOf (report_repr stCex9b)
      ≠ "Date".data :: tokensOf (String.mk (stripT (report_repr_html stCex9b).data)) :=
  ⟨rfl, by decide, rfl, by decide⟩
